import Mathlib

/-!
Verification of the task-based merge-tree core (`MergeTree.cpp`).

The development shallowly embeds the merge-tree data model and the
operations of the source file as executable Lean functions, and proves
the specified properties about them.

Conventions of the embedding:
* vertex ids, node ids, super-arc ids and union-find element ids are `Nat`
  (dense nonnegative indices into the corresponding arrays);
* the parallel chunked loops of the source are sequentialized (the chunks
  partition the iteration range, and the loop bodies of distinct chunks
  touch disjoint data, so the sequential fold over the whole range is the
  corresponding functional program);
* atomic capture / read / write steps become ordinary reads and writes of
  the explicit state;
* `nullptr`-valued union-find entries are `none`; a dereference of a null
  entry (undefined behaviour in the source) is modelled as a no-op;
* classes of the repository that are not part of the provided source file
  (`AtomicUF`, `CurrentState`, `Node`, `SuperArc`, `Segments`, and the
  `vert2tree` accessors of the header) are modelled from the spec, as
  marked on each definition.
-/

namespace TaskedTree

/-- Modelled from the spec: the vertex→tree map entry, a tri-state value
(nil, node id, or arc id) stored per vertex. -/
inductive Corresp where
  | nil : Corresp
  | node (id : Nat) : Corresp
  | arc (id : Nat) : Corresp
deriving DecidableEq, Inhabited

/-- Modelled from the spec: a tree node — its mesh vertex, an origin
(terminaison), and the ordered lists of up and down super-arc ids. -/
structure Node where
  vertexId : Nat
  terminaison : Option Nat
  upArcs : List Nat
  downArcs : List Nat
deriving DecidableEq, Inhabited

/-- Modelled from the spec: a super-arc — down node, up node (`none` while
still open), last-visited vertex, the visit counter (`getNbVertSeen`),
and the segmentation region. -/
structure SuperArc where
  downNodeId : Nat
  upNodeId : Option Nat
  lastVisited : Option Nat
  nbSeen : Int
  region : List Nat
deriving DecidableEq, Inhabited

/-- Modelled from the spec: a propagation front queue (`CurrentState`):
the vertex currently processed and the pending queue of vertices. -/
structure CurrentState where
  vertex : Nat
  queue : List Nat
deriving DecidableEq, Inhabited

/-- Modelled from the spec: the scalar interface — number of vertices,
the ascending-order list of vertex ids, and its inverse permutation. -/
structure Scalars where
  size : Nat
  sortedVertices : List Nat
  mirrorVertices : List Nat
deriving DecidableEq, Inhabited

/-- The mutable state of `MergeTree` (`treeData_`), with the union-find
arena flattened in (parent links, per-element opened-arc lists, state
lists and extrema, as described in the spec for `AtomicUF`). -/
structure MTState where
  nodes : List Node
  superArcs : List SuperArc
  vert2tree : List Corresp
  roots : List Nat
  leaves : List Nat
  valences : List Int
  openedNodes : List Bool
  ufs : List (Option Nat)
  propagation : List (Option Nat)
  ufParent : List Nat
  ufOpenedArcs : List (List Nat)
  ufStates : List (List CurrentState)
  ufExtrema : List Nat
  activeTasks : Nat
  segments : List (List Nat)
deriving DecidableEq, Inhabited

/-- The state of the containers before `build` runs, for a mesh with
`size` vertices. -/
def initialState (size : Nat) : MTState where
  nodes := []
  superArcs := []
  vert2tree := List.replicate size Corresp.nil
  roots := []
  leaves := []
  valences := List.replicate size 0
  openedNodes := List.replicate size false
  ufs := List.replicate size none
  propagation := List.replicate size none
  ufParent := []
  ufOpenedArcs := []
  ufStates := []
  ufExtrema := []
  activeTasks := 0
  segments := []

/-- Modelled from the spec: `vert2tree` lookup. -/
def getCorresp (s : MTState) (v : Nat) : Corresp :=
  s.vert2tree.getD v Corresp.nil

/-- Modelled from the spec: `isCorrespondingNull`. -/
def isCorrespondingNull (s : MTState) (v : Nat) : Bool :=
  match getCorresp s v with
  | Corresp.nil => true
  | _ => false

/-- Modelled from the spec: `isCorrespondingNode`. -/
def isCorrespondingNode (s : MTState) (v : Nat) : Bool :=
  match getCorresp s v with
  | Corresp.node _ => true
  | _ => false

/-- Modelled from the spec: `isCorrespondingArc`. -/
def isCorrespondingArc (s : MTState) (v : Nat) : Bool :=
  match getCorresp s v with
  | Corresp.arc _ => true
  | _ => false

/-- Modelled from the spec: `getCorrespondingNodeId` (decodes the node id
stored in `vert2tree`; unspecified on non-node entries, modelled as 0). -/
def getCorrespondingNodeId (s : MTState) (v : Nat) : Nat :=
  match getCorresp s v with
  | Corresp.node n => n
  | _ => 0

/-- Modelled from the spec: `getCorrespondingSuperArcId`. -/
def getCorrespondingSuperArcId (s : MTState) (v : Nat) : Nat :=
  match getCorresp s v with
  | Corresp.arc a => a
  | _ => 0

/-- Modelled from the spec: `updateCorrespondingArc`. -/
def updateCorrespondingArc (s : MTState) (v a : Nat) : MTState :=
  { s with vert2tree := s.vert2tree.set v (Corresp.arc a) }

/-- Modelled from the spec: `updateCorrespondingNode`. -/
def updateCorrespondingNode (s : MTState) (v n : Nat) : MTState :=
  { s with vert2tree := s.vert2tree.set v (Corresp.node n) }

/-- In-place update of one super-arc slot, as done through
`getSuperArc(a)->...` in the source (out-of-range: no-op, as `List.set`). -/
def modifyArc (s : MTState) (a : Nat) (f : SuperArc → SuperArc) : MTState :=
  { s with superArcs := s.superArcs.set a (f (s.superArcs.getD a default)) }

/-- In-place update of one node slot, as done through `getNode(n)->...`
in the source. -/
def modifyNode (s : MTState) (n : Nat) (f : Node → Node) : MTState :=
  { s with nodes := s.nodes.set n (f (s.nodes.getD n default)) }

/-- Modelled from the spec: `SuperArc::setLastVisited`. -/
def setLastVisited (s : MTState) (a v : Nat) : MTState :=
  modifyArc s a (fun x => { x with lastVisited := some v })

/-- Modelled from the spec: `SuperArc::decrNbSeen`. -/
def decrNbSeen (s : MTState) (a : Nat) : MTState :=
  modifyArc s a (fun x => { x with nbSeen := x.nbSeen - 1 })

/-- Modelled from the spec: `AtomicUF::find` — follows parent links to the
root.  Path compression changes no answer, so it is dropped; the fuel is
the arena size, enough to reach the root of any parent forest. -/
def ufFindAux (parent : List Nat) : Nat → Nat → Nat
  | 0, x => x
  | fuel + 1, x =>
    let p := parent.getD x x
    if p = x then x else ufFindAux parent fuel p

/-- Modelled from the spec: `find` on the union-find arena. -/
def ufFind (parent : List Nat) (x : Nat) : Nat :=
  ufFindAux parent parent.length x

/-- Modelled from the spec: `AtomicUF::makeUnion` — compares the two
roots' extrema, attaches the earlier-in-sweep root under the later one,
transfers opened arcs and states to the new representative, and returns
the new representative. -/
def makeUnion (lower : Nat → Nat → Bool) (s : MTState) (a b : Nat) : MTState × Nat :=
  let ra := ufFind s.ufParent a
  let rb := ufFind s.ufParent b
  if ra = rb then (s, ra)
  else
    let ea := s.ufExtrema.getD ra 0
    let eb := s.ufExtrema.getD rb 0
    let child := if lower ea eb then ra else rb
    let par := if lower ea eb then rb else ra
    let arcs := s.ufOpenedArcs.getD par [] ++ s.ufOpenedArcs.getD child []
    let sts := s.ufStates.getD par [] ++ s.ufStates.getD child []
    let s :=
      { s with
          ufParent := s.ufParent.set child par
          ufOpenedArcs := (s.ufOpenedArcs.set par arcs).set child []
          ufStates := (s.ufStates.set par sts).set child [] }
    (s, par)

/-- Modelled from the spec: `AtomicUF::mergeStates` — collapse all the
representative's front queues into the first one. -/
def mergeStatesAt (s : MTState) (r : Nat) : MTState :=
  match s.ufStates.getD r [] with
  | [] => s
  | st :: rest =>
    { s with ufStates :=
        s.ufStates.set r [{ st with queue := rest.foldl (fun q c => q ++ c.queue) st.queue }] }

/-- `MergeTree::openSuperArc` (safe-mode build: the guard of the source is
compiled in; the sentinel error return is modelled as `none`). -/
def openSuperArc (s : MTState) (downNodeId : Nat) : MTState × Option Nat :=
  if s.nodes.length ≤ downNodeId then (s, none)
  else
    let newSuperArcId := s.superArcs.length
    let s := { s with superArcs := s.superArcs ++ [{ downNodeId := downNodeId, upNodeId := none, lastVisited := none, nbSeen := 0, region := [] }] }
    let s := modifyNode s downNodeId (fun n => { n with upArcs := n.upArcs ++ [newSuperArcId] })
    (s, some newSuperArcId)

/-- `MergeTree::makeSuperArc` (no guard in the source). -/
def makeSuperArc (s : MTState) (downNodeId upNodeId : Nat) : MTState × Nat :=
  let newSuperArcId := s.superArcs.length
  let s := { s with superArcs := s.superArcs ++ [{ downNodeId := downNodeId, upNodeId := some upNodeId, lastVisited := none, nbSeen := 0, region := [] }] }
  let s := modifyNode s downNodeId (fun n => { n with upArcs := n.upArcs ++ [newSuperArcId] })
  let s := modifyNode s upNodeId (fun n => { n with downArcs := n.downArcs ++ [newSuperArcId] })
  (s, newSuperArcId)

/-- `MergeTree::closeSuperArc` (safe-mode build: both range guards of the
source are compiled in; on an out-of-range id the source logs a line and
returns without touching the tree). -/
def closeSuperArc (s : MTState) (superArcId upNodeId : Nat) : MTState :=
  if s.superArcs.length ≤ superArcId then s
  else if s.nodes.length ≤ upNodeId then s
  else
    let s := modifyArc s superArcId (fun x => { x with upNodeId := some upNodeId })
    modifyNode s upNodeId (fun n => { n with downArcs := n.downArcs ++ [superArcId] })

/-- `MergeTree::makeNode` (safe-mode build: the vertex range guard of the
source is compiled in; the sentinel error return is modelled as `none`).
Returns the existing node id if the vertex already is a node; otherwise
reserves the next node slot, sets its vertex, and records it in
`vert2tree`. -/
def makeNode (sc : Scalars) (s : MTState) (vertexId : Nat) (term : Option Nat) :
    MTState × Option Nat :=
  if sc.size ≤ vertexId then (s, none)
  else if isCorrespondingNode s vertexId then (s, some (getCorrespondingNodeId s vertexId))
  else
    let newNodeId := s.nodes.length
    let s := { s with nodes := s.nodes ++ [{ vertexId := vertexId, terminaison := term, upArcs := [], downArcs := [] }] }
    let s := updateCorrespondingNode s vertexId newNodeId
    (s, some newNodeId)

/-- `MergeTree::delNode`: removal of a node, reconnecting the one down arc
to the up node when both exist; a root with a number of down arcs other
than one is logged and left untouched (safe-mode guard). -/
def delNode (s : MTState) (node : Nat) : MTState :=
  let mainNode := s.nodes.getD node default
  if mainNode.upArcs.length = 0 then
    if mainNode.downArcs.length ≠ 1 then s
    else
      let downArc := mainNode.downArcs.getD 0 0
      let downNodeId := (s.superArcs.getD downArc default).downNodeId
      let s := modifyNode s downNodeId (fun n => { n with upArcs := n.upArcs.erase downArc })
      modifyNode s node (fun n => { n with downArcs := [] })
  else if mainNode.downArcs.length < 2 then
    let upArc := mainNode.upArcs.getD 0 0
    let upId := (s.superArcs.getD upArc default).upNodeId.getD 0
    let s := modifyNode s upId (fun n => { n with downArcs := n.downArcs.erase upArc })
    let s := modifyNode s node (fun n => { n with upArcs := [] })
    if (s.nodes.getD node default).downArcs.length ≠ 0 then
      let downArc := (s.nodes.getD node default).downArcs.getD 0 0
      let s := modifyArc s downArc (fun x => { x with upNodeId := some upId })
      let s := modifyNode s upId (fun n => { n with downArcs := n.downArcs ++ [downArc] })
      let s := modifyNode s node (fun n => { n with downArcs := [] })
      modifyArc s downArc (fun x =>
        { x with region := x.region ++ (s.superArcs.getD upArc default).region })
    else s
  else s

/-- Fresh union-find element (`new AtomicUF(v)`): self-parent, no opened
arcs, no states, extremum `v`.  Returns the arena and the new element id. -/
def newAtomicUF (s : MTState) (v : Nat) : MTState × Nat :=
  let uid := s.ufParent.length
  ({ s with
      ufParent := s.ufParent ++ [uid]
      ufOpenedArcs := s.ufOpenedArcs ++ [[]]
      ufStates := s.ufStates ++ [[]]
      ufExtrema := s.ufExtrema ++ [v] }, uid)

/-- `MergeTree::closeArcsUF`: close every opened arc of the
representative of `u` on `closeNode`, then clear the opened-arc list. -/
def closeArcsUF (s : MTState) (closeNode : Nat) (u : Nat) : MTState :=
  let r := ufFind s.ufParent u
  let s2 := (s.ufOpenedArcs.getD r []).foldl (fun t sa => closeSuperArc t sa closeNode) s
  { s2 with ufOpenedArcs := s2.ufOpenedArcs.set r [] }

/-- One neighbor iteration of the union loops of
`closeAndMergeOnSaddle` / `closeOnBackBone`: for a lower-in-sweep
neighbor whose class differs from the saddle's, union the two classes
and store the new representative at the saddle's `ufs` entry.  A null
`ufs` entry is skipped (in `closeOnBackBone` the source checks for null;
in `closeAndMergeOnSaddle` a null entry would be dereferenced — undefined
behaviour, modelled as the same skip). -/
def saddleUnionStep (lower : Nat → Nat → Bool) (saddleVert : Nat) (t : MTState) (n : Nat) :
    MTState :=
  if lower n saddleVert then
    match t.ufs.getD n none, t.ufs.getD saddleVert none with
    | some un, some uv =>
      if ufFind t.ufParent un ≠ ufFind t.ufParent uv then
        let q := makeUnion lower t uv un
        { q.1 with ufs := q.1.ufs.set saddleVert (some q.2) }
      else t
    | _, _ => t
  else t

/-- `MergeTree::closeAndMergeOnSaddle`: make a node on the saddle, union
every differing lower-neighbor class into the saddle's class, close all
opened arcs of the resulting representative on the node, collapse its
front queues and set its extremum to the saddle. -/
def closeAndMergeOnSaddle (sc : Scalars) (lower : Nat → Nat → Bool)
    (neighbors : Nat → List Nat) (s0 : MTState) (saddleVert : Nat) : MTState :=
  let mk := makeNode sc s0 saddleVert none
  let closeNode := mk.2.getD mk.1.nodes.length
  let s := (neighbors saddleVert).foldl (saddleUnionStep lower saddleVert) mk.1
  match s.ufs.getD saddleVert none with
  | none => s
  | some uv =>
    let s := closeArcsUF s closeNode uv
    let r := ufFind s.ufParent uv
    let s := mergeStatesAt s r
    { s with ufExtrema := s.ufExtrema.set r saddleVert }

/-- `MergeTree::closeOnBackBone`: `closeAndMergeOnSaddle` specialized for
the trunk — same node creation and union loop (with the explicit null
check of the source), close the opened arcs, but no state collapse and no
extremum update. -/
def closeOnBackBone (sc : Scalars) (lower : Nat → Nat → Bool)
    (neighbors : Nat → List Nat) (s0 : MTState) (saddleVert : Nat) : MTState :=
  let mk := makeNode sc s0 saddleVert none
  let closeNode := mk.2.getD mk.1.nodes.length
  let s := (neighbors saddleVert).foldl (saddleUnionStep lower saddleVert) mk.1
  match s.ufs.getD saddleVert none with
  | none => s
  | some uv => closeArcsUF s closeNode uv

/-- Result of `MergeTree::propage`: the updated tree state, the updated
front queue, and the two booleans returned by the source. -/
structure PropageResult where
  mt : MTState
  state : CurrentState
  becameSaddle : Bool
  isLast : Bool
deriving DecidableEq

/-- Accumulator for the neighbor loop of `propage`. -/
structure PropLoop where
  mt : MTState
  cs : CurrentState
  becameSaddle : Bool
  decr : Int
deriving DecidableEq

/-- One neighbor iteration of `propage`: a lower neighbor in a foreign or
null class makes this vertex a saddle, a lower neighbor in the current
class counts into `decr`; a higher neighbor not yet propagated by the
current representative is enqueued and marked in the propagation map. -/
def propageStep (lower : Nat → Nat → Bool) (curUFF v : Nat) (acc : PropLoop) (n : Nat) :
    PropLoop :=
  if lower n v then
    match acc.mt.ufs.getD n none with
    | none => { acc with becameSaddle := true }
    | some u =>
      if ufFind acc.mt.ufParent u ≠ curUFF then { acc with becameSaddle := true }
      else { acc with decr := acc.decr + 1 }
  else
    let fresh :=
      match acc.mt.propagation.getD n none with
      | none => true
      | some p => ufFind acc.mt.ufParent p ≠ curUFF
    if fresh then
      { acc with
          mt := { acc.mt with propagation := acc.mt.propagation.set n (some curUFF) }
          cs := { acc.cs with queue := acc.cs.queue ++ [n] } }
    else acc

/-- `MergeTree::propage`: scan the neighbors of the current vertex, then
atomically capture-and-decrement the vertex's valence by `decr`; the
front is the last arrival exactly when the pre-decrement value equals
`decr`. -/
def propage (lower : Nat → Nat → Bool) (neighbors : Nat → List Nat)
    (s : MTState) (cs : CurrentState) (curUF : Nat) : PropageResult :=
  let curUFF := ufFind s.ufParent curUF
  let r := (neighbors cs.vertex).foldl (propageStep lower curUFF cs.vertex)
    { mt := s, cs := cs, becameSaddle := false, decr := 0 }
  let oldVal := r.mt.valences.getD cs.vertex 0
  let mt := { r.mt with valences := r.mt.valences.set cs.vertex (oldVal - r.decr) }
  { mt := mt, state := r.cs, becameSaddle := r.becameSaddle, isLast := oldVal == r.decr }

/-- The number of lower-in-sweep neighbors of `v` whose union-find entry
is set and finds to `curUFF` — the value accumulated in `decr` by the
neighbor loop of `propage`. -/
def ufsSameClassCount (lower : Nat → Nat → Bool) (neighbors : Nat → List Nat)
    (s : MTState) (curUFF v : Nat) : Nat :=
  ((neighbors v).filter (fun n => lower n v)).countP
    (fun n =>
      match s.ufs.getD n none with
      | some u => ufFind s.ufParent u == curUFF
      | none => false)

/-- The condition under which one neighbor iteration of `propage`
increments `decr`: the neighbor is lower in sweep and its union-find
entry is set and finds to the current representative. -/
def sameClassPred (lower : Nat → Nat → Bool) (curUFF : Nat) (ufs : List (Option Nat))
    (parent : List Nat) (v n : Nat) : Bool :=
  lower n v &&
    (match ufs.getD n none with
     | some u => ufFind parent u == curUFF
     | none => false)

/-- Modelled from the spec: `CurrentState::getNextMinVertex` — remove and
return the sweep-minimum vertex of the queue, making it the front's
current vertex. -/
def listSweepMin (lower : Nat → Nat → Bool) : List Nat → Option Nat
  | [] => none
  | x :: xs => some (xs.foldl (fun m y => if lower y m then y else m) x)

/-- Modelled from the spec: pop of the front queue. -/
def getNextMinVertex (lower : Nat → Nat → Bool) (cs : CurrentState) :
    Option (Nat × CurrentState) :=
  match listSweepMin lower cs.queue with
  | none => none
  | some m => some (m, { vertex := m, queue := cs.queue.erase m })

/-- The per-task mutable data of `MergeTree::processTask`: the shared tree
state, the live front queue carried by the task, the seen-first flag, the
currently opened arc, the start vertex, and the task's union-find
representative resolved at task start. -/
structure TaskState where
  mt : MTState
  state : CurrentState
  seenFirst : Bool
  currentArc : Nat
  startVert : Nat
  startUF : Nat
deriving DecidableEq

/-- Outcome of one iteration of the propagation loop of `processTask`:
the queue is drained (loop exits to the root closing); the popped vertex
is skipped; it is propagated as a regular vertex; or it is a saddle and
the task returns (not-last arrival, sole survivor) or continues from the
saddle at the next depth. -/
inductive StepOutcome where
  | drained (t : TaskState)
  | skip (t : TaskState) (cur : Nat)
  | regular (t : TaskState) (cur : Nat)
  | saddleNotLast (t : TaskState) (cur : Nat)
  | saddleLastAlone (t : TaskState) (cur : Nat)
  | saddleMerge (t : TaskState) (cur dNext : Nat)
deriving DecidableEq

/-- The popped vertex an outcome reports. -/
def StepOutcome.vertexOf : StepOutcome → Option Nat
  | StepOutcome.drained _ => none
  | StepOutcome.skip _ c => some c
  | StepOutcome.regular _ c => some c
  | StepOutcome.saddleNotLast _ c => some c
  | StepOutcome.saddleLastAlone _ c => some c
  | StepOutcome.saddleMerge _ c _ => some c

/-- Whether an outcome is one of the three saddle terminations. -/
def StepOutcome.isSaddle : StepOutcome → Bool
  | StepOutcome.saddleNotLast _ _ => true
  | StepOutcome.saddleLastAlone _ _ => true
  | StepOutcome.saddleMerge _ _ _ => true
  | _ => false

/-- The accepted-vertex part of the loop body of `processTask` (the code
from the `propage` call to the end of the iteration): propagate, publish
the task's representative at the vertex, then branch on the saddle and
last-arrival flags exactly as the source does. -/
def processAccept (sc : Scalars) (lower : Nat → Nat → Bool) (neighbors : Nat → List Nat)
    (t : TaskState) (cur d : Nat) : StepOutcome :=
  let pr := propage lower neighbors t.mt t.state t.startUF
  let mt := { pr.mt with ufs := pr.mt.ufs.set cur (some t.startUF) }
  if pr.becameSaddle then
    let mt := { mt with openedNodes := mt.openedNodes.set cur true }
    if pr.isLast then
      if mt.activeTasks = 1 then
        StepOutcome.saddleLastAlone { t with mt := mt, state := pr.state } cur
      else
        let mt2 := closeAndMergeOnSaddle sc lower neighbors mt cur
        let mt3 := { mt2 with openedNodes := mt2.openedNodes.set cur false }
        StepOutcome.saddleMerge { t with mt := mt3, state := pr.state } cur (d + 1)
    else
      StepOutcome.saddleNotLast
        { t with mt := { mt with activeTasks := mt.activeTasks - 1 }, state := pr.state } cur
  else
    let mt := if cur ≠ t.startVert then updateCorrespondingArc mt cur t.currentArc else mt
    let mt := setLastVisited mt t.currentArc cur
    StepOutcome.regular { t with mt := mt, state := pr.state } cur

/-- One iteration of the propagation loop of `processTask` (lines popping
the next vertex, the duplicate guards, and the body): pop the sweep-min
vertex; skip it if `vert2tree` already records an arc there, or if it is
the start vertex and the seen-first flag is already set; otherwise accept
it (setting the flag on the start vertex). -/
def processStep (sc : Scalars) (lower : Nat → Nat → Bool) (neighbors : Nat → List Nat)
    (t : TaskState) (d : Nat) : StepOutcome :=
  match getNextMinVertex lower t.state with
  | none => StepOutcome.drained t
  | some (cur, popped) =>
    let t := { t with state := popped }
    if !isCorrespondingNull t.mt cur && !isCorrespondingNode t.mt cur then
      StepOutcome.skip t cur
    else if cur = t.startVert then
      if !t.seenFirst then processAccept sc lower neighbors { t with seenFirst := true } cur d
      else StepOutcome.skip t cur
    else processAccept sc lower neighbors t cur d

/-- The root closing after the propagation loop drains: close the current
arc on a node at its last-visited vertex and append that node to the
roots list. -/
def rootClose (sc : Scalars) (t : TaskState) : MTState :=
  let closeVert := ((t.mt.superArcs.getD t.currentArc default).lastVisited).getD 0
  let mk :=
    if isCorrespondingNode t.mt closeVert then (t.mt, getCorrespondingNodeId t.mt closeVert)
    else
      let m := makeNode sc t.mt closeVert none
      (m.1, m.2.getD m.1.nodes.length)
  let s := closeSuperArc mk.1 t.currentArc mk.2
  let s := decrNbSeen s t.currentArc
  { s with roots := s.roots ++ [mk.2] }

/-- How a run of the propagation loop ends. -/
inductive SweepEnd where
  | fuelOut (t : TaskState)
  | rootClosed (s : MTState)
  | stoppedNotLast (t : TaskState) (cur : Nat)
  | stoppedAlone (t : TaskState) (cur : Nat)
  | continued (t : TaskState) (cur dNext : Nat)
deriving DecidableEq

/-- The propagation loop of `processTask`, run to completion with fuel:
returns the list of popped vertices, the sublist of accepted (propagated)
vertices, and how the loop ended. -/
def runSweep (sc : Scalars) (lower : Nat → Nat → Bool) (neighbors : Nat → List Nat) :
    Nat → TaskState → Nat → List Nat × List Nat × SweepEnd
  | 0, t, _ => ([], [], SweepEnd.fuelOut t)
  | fuel + 1, t, d =>
    match processStep sc lower neighbors t d with
    | StepOutcome.drained t1 => ([], [], SweepEnd.rootClosed (rootClose sc t1))
    | StepOutcome.skip t1 cur =>
      let r := runSweep sc lower neighbors fuel t1 d
      (cur :: r.1, r.2.1, r.2.2)
    | StepOutcome.regular t1 cur =>
      let r := runSweep sc lower neighbors fuel t1 d
      (cur :: r.1, cur :: r.2.1, r.2.2)
    | StepOutcome.saddleNotLast t1 cur => ([cur], [cur], SweepEnd.stoppedNotLast t1 cur)
    | StepOutcome.saddleLastAlone t1 cur => ([cur], [cur], SweepEnd.stoppedAlone t1 cur)
    | StepOutcome.saddleMerge t1 cur dn => ([cur], [cur], SweepEnd.continued t1 cur dn)

/-- `MergeTree::processTask` with fuel: resolve the representative, get or
create the front queue, enqueue the start vertex, open the arc on the
start node and register it, run the propagation loop, and on a last-
arrival merge continue from the saddle at depth `d + 1`. -/
def processTaskAux (sc : Scalars) (lower : Nat → Nat → Bool) (neighbors : Nat → List Nat) :
    Nat → MTState → Nat → Nat → Nat → MTState
  | 0, s, _, _, _ => s
  | fuel + 1, s, startVert, d, orig =>
    match s.ufs.getD startVert none with
    | none => s
    | some u0 =>
      let startUF := ufFind s.ufParent u0
      let pr :=
        match s.ufStates.getD startUF [] with
        | [] =>
          let c : CurrentState := { vertex := startVert, queue := [] }
          ({ s with ufStates := s.ufStates.set startUF [c] }, c)
        | c :: _ => (s, c)
      let s := pr.1
      let cs := { pr.2 with queue := pr.2.queue ++ [startVert] }
      let startNode := getCorrespondingNodeId s startVert
      let op := openSuperArc s startNode
      let s := op.1
      let currentArc := op.2.getD s.superArcs.length
      let s := { s with ufOpenedArcs :=
          s.ufOpenedArcs.set startUF (s.ufOpenedArcs.getD startUF [] ++ [currentArc]) }
      let t : TaskState :=
        { mt := s, state := cs, seenFirst := false, currentArc := currentArc,
          startVert := startVert, startUF := startUF }
      let r := runSweep sc lower neighbors fuel t d
      match r.2.2 with
      | SweepEnd.fuelOut t1 => t1.mt
      | SweepEnd.rootClosed s1 => s1
      | SweepEnd.stoppedNotLast t1 _ => t1.mt
      | SweepEnd.stoppedAlone t1 _ => t1.mt
      | SweepEnd.continued t1 v dn => processTaskAux sc lower neighbors fuel t1.mt v dn orig

/-- Model of `std::sort` with a strict comparator `cmp`: a permutation of
the input in which no element is strictly `cmp`-below an earlier one
(the postcondition `std::sort` guarantees for a strict weak order). -/
def stdSort (cmp : Nat → Nat → Bool) (l : List Nat) : List Nat :=
  l.mergeSort (fun a b => !cmp b a)

/-- The lower-in-sweep neighbor count computed per vertex by the chunk
loop of `precompute`. -/
def lowerValence (lower : Nat → Nat → Bool) (neighbors : Nat → List Nat) (v : Nat) : Nat :=
  (neighbors v).countP (fun n => lower n v)

/-- The per-vertex body of the chunk loop of `precompute`: store the
lower-neighbor count in `valences[v]` and make a leaf node when the count
is zero. -/
def precomputeStep (sc : Scalars) (lower : Nat → Nat → Bool) (neighbors : Nat → List Nat)
    (s : MTState) (v : Nat) : MTState :=
  let val : Int := lowerValence lower neighbors v
  let s := { s with valences := s.valences.set v val }
  if val = 0 then (makeNode sc s v none).1 else s

/-- `MergeTree::precompute`: when no nodes exist yet, scan every vertex
(the chunks partition the range; sequentialized), then fill the leaves
list with the node ids `[0, nbLeaves)` (`resize` + `iota`).  The arc
reservation is a capacity hint with no observable effect. -/
def precompute (sc : Scalars) (lower : Nat → Nat → Bool) (neighbors : Nat → List Nat)
    (s : MTState) : MTState :=
  let s :=
    if s.nodes.length = 0 then
      (List.range sc.size).foldl (precomputeStep sc lower neighbors) s
    else s
  { s with leaves := List.range s.nodes.length }

/-- `MergeTree::leaves`: the task-launching phase.  With one single leaf
only the backbone remains: mark its vertex in the opened-nodes bitmap and
give it a fresh union-find element.  Otherwise set the active-task
counter to the number of leaves, sort the leaves in sweep order of their
vertices, and for each leaf create a fresh union-find element on its
vertex and launch a task `(vertex, depth 0, origin index)`; the launched
tasks are returned as a list. -/
def leavesPhase (lower : Nat → Nat → Bool) (s : MTState) :
    MTState × List (Nat × Nat × Nat) :=
  let nbLeaves := s.leaves.length
  if nbLeaves = 1 then
    let v := (s.nodes.getD 0 default).vertexId
    let s := { s with openedNodes := s.openedNodes.set v true }
    let p := newAtomicUF s v
    ({ p.1 with ufs := p.1.ufs.set v (some p.2) }, [])
  else
    let s := { s with activeTasks := nbLeaves }
    let sortedLeaves := stdSort
      (fun a b => lower (s.nodes.getD a default).vertexId (s.nodes.getD b default).vertexId)
      s.leaves
    let s := { s with leaves := sortedLeaves }
    sortedLeaves.foldl
      (fun (acc : MTState × List (Nat × Nat × Nat)) l =>
        let v := (acc.1.nodes.getD l default).vertexId
        let p := newAtomicUF acc.1 v
        ({ p.1 with ufs := p.1.ufs.set v (some p.2) }, acc.2 ++ [(v, 0, acc.2.length)]))
      (s, [])

/-- The pending-vertex list of `MergeTree::trunk`: the vertices whose
opened-nodes bit is set, in index order, then sorted in sweep order. -/
def trunkPending (lower : Nat → Nat → Bool) (sc : Scalars) (s : MTState) : List Nat :=
  stdSort lower ((List.range sc.size).filter (fun v => s.openedNodes.getD v false))

/-- The state after the backbone-closing pass of `MergeTree::trunk`
(`for (const idVertex v : pendingVerts) closeOnBackBone(v);`): the pending
vertices are handed to `closeOnBackBone` one by one, in sorted order. -/
def trunkBackboneState (sc : Scalars) (lower : Nat → Nat → Bool)
    (neighbors : Nat → List Nat) (s : MTState) : MTState :=
  (trunkPending lower sc s).foldl (closeOnBackBone sc lower neighbors) s

/-- The consecutive-pair arc chain of `trunk` (`for n = 1; n < nbNodes`):
`trunkChainAux k` performs the iterations `n = 1 .. k` in order. -/
def trunkChainAux (pendingVerts : List Nat) (s : MTState) : Nat → MTState
  | 0 => s
  | k + 1 =>
    let t := trunkChainAux pendingVerts s k
    let na := makeSuperArc t
      (getCorrespondingNodeId t (pendingVerts.getD k 0))
      (getCorrespondingNodeId t (pendingVerts.getD (k + 1) 0))
    setLastVisited na.1 na.2 (pendingVerts.getD (k + 1) 0)

/-- `MergeTree::getBoundsFromVerts`: position of the first pending vertex
in the sorted order, and the stop bound of the trunk scan. -/
def getBoundsFromVerts (sc : Scalars) (isJT : Bool) (nodes : List Nat) : Int × Int :=
  let start : Int := sc.mirrorVertices.getD (nodes.getD 0 0) 0
  if isJT then (start, sc.size) else (start, -1)

/-- `MergeTree::getVertInRange`: advance `last` while the next pending
vertex is still lower than `v` (fuel: the range size bounds the number of
advances). -/
def getVertInRangeAux (lower : Nat → Nat → Bool) (rng : List Nat) (v : Nat) :
    Nat → Nat → Nat
  | 0, idRes => idRes
  | fuel + 1, idRes =>
    if idRes + 1 < rng.length then
      if lower (rng.getD (idRes + 1) 0) v then getVertInRangeAux lower rng v fuel (idRes + 1)
      else idRes
    else idRes

/-- `MergeTree::getVertInRange`. -/
def getVertInRange (lower : Nat → Nat → Bool) (rng : List Nat) (v last : Nat) : Nat :=
  getVertInRangeAux lower rng v rng.length last

/-- Modelled from the spec: the up arc of the backbone node sitting on
vertex `v` (`getNode(corr(v))->getUpSuperArcId(0)`). -/
def upArcFromVert (s : MTState) (v : Nat) : Nat :=
  (s.nodes.getD (getCorrespondingNodeId s v) default).upArcs.getD 0 0

/-- `MergeTree::assignChunkTrunk`: attribute one trunk vertex to the up
arc of the nearest pending vertex below it, accumulating visit counts and
flushing them to the arc left behind when the range pointer advances. -/
def assignChunkTrunk (sc : Scalars) (lower : Nat → Nat → Bool) (pendingVerts : List Nat)
    (st : MTState × Nat × Nat) (v : Nat) : MTState × Nat × Nat :=
  let s := st.1
  let lastVertInRange := st.2.1
  let acc := st.2.2
  let sv := sc.sortedVertices.getD v 0
  if isCorrespondingNull s sv then
    let oldVertInRange := lastVertInRange
    let lastVertInRange := getVertInRange lower pendingVerts sv lastVertInRange
    let thisArc := upArcFromVert s (pendingVerts.getD lastVertInRange 0)
    let s := updateCorrespondingArc s sv thisArc
    if oldVertInRange = lastVertInRange then (s, lastVertInRange, acc + 1)
    else
      let oldArc := upArcFromVert s (pendingVerts.getD oldVertInRange 0)
      let s := modifyArc s oldArc (fun x => { x with nbSeen := x.nbSeen + (acc : Int) })
      (s, lastVertInRange, 1)
  else st

/-- The backbone part of `MergeTree::trunk` (collection, sorting and
closing of the pending saddles, the chain of consecutive super-arcs, and
the final arc onto the root node at the global extremum of the sweep),
returning the updated state and the returned backbone size.  The chunked
visit-count accumulation that follows in the source only feeds the
segmentation counters via `assignChunkTrunk` above and is left to the
caller. -/
def trunk (sc : Scalars) (lower : Nat → Nat → Bool) (neighbors : Nat → List Nat)
    (isJT : Bool) (s : MTState) : MTState × Nat :=
  let pendingVerts := trunkPending lower sc s
  let s := pendingVerts.foldl (closeOnBackBone sc lower neighbors) s
  let nbNodes := pendingVerts.length
  let s := trunkChainAux pendingVerts s (nbNodes - 1)
  if nbNodes = 0 then (s, 0)
  else
    let op := openSuperArc s (getCorrespondingNodeId s (pendingVerts.getD (nbNodes - 1) 0))
    let s := op.1
    let lastArc := op.2.getD s.superArcs.length
    let mk := makeNode sc s (sc.sortedVertices.getD (if isJT then sc.size - 1 else 0) 0) none
    let s := mk.1
    let rootNode := mk.2.getD s.nodes.length
    let s := closeSuperArc s lastArc rootNode
    let s := setLastVisited s lastArc (s.nodes.getD rootNode default).vertexId
    let bounds := getBoundsFromVerts sc isJT pendingVerts
    (s, (bounds.2 - bounds.1).natAbs)

/-- The filled prefix of a fixed-size segment buffer: the first `alloc`
entries of `l` written in order, the rest of the allocation keeping its
zero initialization. -/
def fillSeq (alloc : Nat) (l : List Nat) : List Nat :=
  l.take alloc ++ List.replicate (alloc - l.length) 0

/-- One vertex iteration of the segment-filling pass of
`buildSegmentation`: an arc-owned vertex is written into its arc's
segment at the atomically reserved position. -/
def segFillStep (sc : Scalars) (s : MTState) (acc : List (List Nat) × List Nat) (i : Nat) :
    List (List Nat) × List Nat :=
  let vert := sc.sortedVertices.getD i 0
  if isCorrespondingArc s vert then
    let sa := getCorrespondingSuperArcId s vert
    let vertToAdd := acc.2.getD sa 0
    (acc.1.set sa ((acc.1.getD sa []).set vertToAdd vert), acc.2.set sa (vertToAdd + 1))
  else acc

/-- The arc-owned subsequence of the sweep-sorted vertex scan: the
vertices `sortedVertices[i]`, `i < size`, whose `vert2tree` entry is the
arc `a`, in scan order. -/
def arcOwnedSeq (sc : Scalars) (s : MTState) (a : Nat) : List Nat :=
  ((List.range sc.size).map (fun i => sc.sortedVertices.getD i 0)).filter
    (fun v => decide (getCorresp s v = Corresp.arc a))

/-- `MergeTree::buildSegmentation`: allocate each arc's segment to
`max(0, visitCount - 1)`, fill the segments from the sweep-sorted vertex
scan at atomically reserved indices, sort every segment (`sortAll`,
modelled from the spec: sweep order), and concatenate each non-empty
segment onto its arc's region. -/
def buildSegmentation (sc : Scalars) (lower : Nat → Nat → Bool) (s : MTState) : MTState :=
  let nbArcs := s.superArcs.length
  let sizes := s.superArcs.map (fun a => (max 0 (a.nbSeen - 1)).toNat)
  let segs0 := sizes.map (fun k => List.replicate k 0)
  let filled := (List.range sc.size).foldl (segFillStep sc s) (segs0, List.replicate nbArcs 0)
  let segs := filled.1.map (stdSort lower)
  let s := { s with segments := segs }
  (List.range nbArcs).foldl
    (fun t a =>
      if (t.segments.getD a []).length ≠ 0 then
        modifyArc t a (fun x => { x with region := x.region ++ t.segments.getD a [] })
      else t)
    s

/-- `v` is recorded as the node `n`: the `vert2tree` entry of `v` is
`node n`, and slot `n` holds a node sitting on `v`. -/
def NodeAt (s : MTState) (v n : Nat) : Prop :=
  getCorresp s v = Corresp.node n ∧ n < s.nodes.length ∧ (s.nodes.getD n default).vertexId = v

/-- Consistency of the vertex→tree map: every `node` entry points to an
existing node sitting on that vertex (spec invariant: `vert2tree[v] ==
node` ⇒ `v` is the vertex of exactly one node). -/
def V2TConsistent (s : MTState) : Prop :=
  ∀ v n, getCorresp s v = Corresp.node n →
    n < s.nodes.length ∧ (s.nodes.getD n default).vertexId = v

/-- Fixture: the strict natural order, used as sweep comparator of the
concrete evaluations. -/
def natLower : Nat → Nat → Bool := fun a b => decide (a < b)

/-- Fixture: the path mesh on three vertices 0 – 1 – 2. -/
def chainNeighbors : Nat → List Nat := fun v =>
  if v = 0 then [1] else if v = 1 then [0, 2] else if v = 2 then [1] else []

/-- Fixture: scalars of a three-vertex mesh whose values follow ids. -/
def sc3 : Scalars := { size := 3, sortedVertices := [0, 1, 2], mirrorVertices := [0, 1, 2] }

/-- Fixture: a tree with one root node carrying two down arcs. -/
def fixRoot2 : MTState :=
  { initialState 1 with
      nodes := [{ vertexId := 0, terminaison := none, upArcs := [], downArcs := [0, 1] }]
      superArcs :=
        [{ downNodeId := 0, upNodeId := some 0, lastVisited := none, nbSeen := 0, region := [] },
         { downNodeId := 0, upNodeId := some 0, lastVisited := none, nbSeen := 0, region := [] }] }

/-- Fixture: a task state in the chain mesh about to pop the saddle
vertex 2: the task started at vertex 0 (class 0), a foreign front owns
vertex 1 (class 1), two tasks are active. -/
def fixTask : TaskState :=
  { mt :=
      { initialState 3 with
          nodes :=
            [{ vertexId := 0, terminaison := none, upArcs := [0], downArcs := [] },
             { vertexId := 1, terminaison := none, upArcs := [1], downArcs := [] }]
          superArcs :=
            [{ downNodeId := 0, upNodeId := none, lastVisited := some 0, nbSeen := 0,
               region := [] },
             { downNodeId := 1, upNodeId := none, lastVisited := some 1, nbSeen := 0,
               region := [] }]
          vert2tree := [Corresp.node 0, Corresp.node 1, Corresp.nil]
          valences := [0, 0, 2]
          ufs := [some 0, some 1, none]
          ufParent := [0, 1]
          ufOpenedArcs := [[0], [1]]
          ufStates := [[{ vertex := 0, queue := [] }], []]
          ufExtrema := [0, 1]
          activeTasks := 2 }
    state := { vertex := 0, queue := [2] }
    seenFirst := true
    currentArc := 0
    startVert := 0
    startUF := 0 }

/-- Fixture: two fronts about to meet at vertex 2 of the chain mesh:
vertices 0 and 1 carry distinct union-find classes, vertex 2 has valence
2. -/
def fixProp : MTState :=
  { initialState 3 with
      valences := [0, 0, 2]
      ufs := [some 0, some 1, none]
      ufParent := [0, 1]
      ufOpenedArcs := [[0], [1]]
      ufStates := [[], []]
      ufExtrema := [0, 1] }

/-- Fixture: one node and one still-open arc. -/
def fixOneArc : MTState :=
  { initialState 1 with
      nodes := [{ vertexId := 0, terminaison := none, upArcs := [0], downArcs := [] }]
      superArcs :=
        [{ downNodeId := 0, upNodeId := none, lastVisited := none, nbSeen := 0, region := [] }] }

/-- Fixture: a fresh three-vertex state whose opened-nodes bitmap marks
vertex 1, ready for the trunk phase. -/
def fixTrunk : MTState :=
  { initialState 3 with openedNodes := [false, true, false] }

/-- Fixture: a swept three-vertex tree with one arc visited three times
that owns vertices 1 and 2, ready for segmentation. -/
def fixSeg : MTState :=
  { initialState 3 with
      nodes := [{ vertexId := 0, terminaison := none, upArcs := [0], downArcs := [] }]
      superArcs :=
        [{ downNodeId := 0, upNodeId := none, lastVisited := none, nbSeen := 3, region := [0] }]
      vert2tree := [Corresp.node 0, Corresp.arc 0, Corresp.arc 0] }

/-! ### Helper lemmas on list access -/

theorem getD_set_self {α : Type} {l : List α} {i : Nat} {x d : α} (h : i < l.length) :
    (l.set i x).getD i d = x := by
  simp [List.getD_eq_getElem?_getD, List.getElem?_set_self h]

theorem getD_set_ne {α : Type} {l : List α} {i j : Nat} (x d : α) (h : i ≠ j) :
    (l.set i x).getD j d = l.getD j d := by
  simp [List.getD_eq_getElem?_getD, List.getElem?_set_ne h]

theorem set_oob {α : Type} {l : List α} {i : Nat} (x : α) (h : l.length ≤ i) :
    l.set i x = l :=
  List.set_eq_of_length_le h

theorem getD_append_left {α : Type} {l l2 : List α} {i : Nat} (d : α) (h : i < l.length) :
    (l ++ l2).getD i d = l.getD i d := by
  simp [List.getD_eq_getElem?_getD, List.getElem?_append_left h]

theorem getD_append_right {α : Type} {l l2 : List α} {i : Nat} (d : α) (h : l.length ≤ i) :
    (l ++ l2).getD i d = l2.getD (i - l.length) d := by
  simp [List.getD_eq_getElem?_getD, List.getElem?_append_right h]

/-! ### C7: idempotence of makeNode -/

/-- C7: `makeNode` is idempotent per vertex.  For an in-range vertex `v`
(with the map sized to the mesh): if `v` already is a node, `makeNode`
returns the existing node id and leaves the state unchanged; otherwise it
reserves the next node slot on `v`, records it in `vert2tree` and returns
the new id; and a second call returns the same id without creating
anything. -/
theorem makeNode_idempotent (sc : Scalars) (s : MTState) (v : Nat) (term : Option Nat)
    (hv : v < sc.size) (hlen : s.vert2tree.length = sc.size) :
    (isCorrespondingNode s v = true →
        makeNode sc s v term = (s, some (getCorrespondingNodeId s v))) ∧
    (isCorrespondingNode s v = false →
        makeNode sc s v term =
          ({ s with
              nodes := s.nodes ++
                [{ vertexId := v, terminaison := term, upArcs := [], downArcs := [] }]
              vert2tree := s.vert2tree.set v (Corresp.node s.nodes.length) },
            some s.nodes.length)) ∧
    makeNode sc (makeNode sc s v term).1 v term = makeNode sc s v term := by
  have hguard : ¬ sc.size ≤ v := by omega
  refine ⟨?_, ?_, ?_⟩
  · intro hnode
    simp [makeNode, hguard, hnode]
  · intro hnot
    simp [makeNode, hguard, hnot, updateCorrespondingNode]
  · by_cases hnode : isCorrespondingNode s v = true
    · simp [makeNode, hguard, hnode]
    · have hnot : isCorrespondingNode s v = false := by
        simpa using hnode
      have hfirst : makeNode sc s v term =
          ({ s with
              nodes := s.nodes ++
                [{ vertexId := v, terminaison := term, upArcs := [], downArcs := [] }]
              vert2tree := s.vert2tree.set v (Corresp.node s.nodes.length) },
            some s.nodes.length) := by
        simp [makeNode, hguard, hnot, updateCorrespondingNode]
      have hvlen : v < s.vert2tree.length := by omega
      obtain ⟨s1, r1, hs1⟩ : ∃ s1 r1, makeNode sc s v term = (s1, r1) := ⟨_, _, rfl⟩
      have hs1fst : s1 = ({ s with
          nodes := s.nodes ++
            [{ vertexId := v, terminaison := term, upArcs := [], downArcs := [] }]
          vert2tree := s.vert2tree.set v (Corresp.node s.nodes.length) } : MTState) := by
        have := hfirst
        rw [hs1] at this
        exact congrArg Prod.fst this
      have hr1 : r1 = some s.nodes.length := by
        have := hfirst
        rw [hs1] at this
        exact congrArg Prod.snd this
      have hcorr : getCorresp s1 v = Corresp.node s.nodes.length := by
        rw [hs1fst]
        simpa [getCorresp] using getD_set_self (x := Corresp.node s.nodes.length)
          (d := Corresp.nil) hvlen
      have hnode2 : isCorrespondingNode s1 v = true := by
        simp [isCorrespondingNode, hcorr]
      have hid2 : getCorrespondingNodeId s1 v = s.nodes.length := by
        simp [getCorrespondingNodeId, hcorr]
      rw [hs1]
      show makeNode sc s1 v term = (s1, r1)
      rw [makeNode]
      simp [hguard, hnode2, hid2, hr1]

/-- C7 witness: on the three-vertex fixture with an empty tree, the first
call creates node 0 on vertex 1 and the second call returns it
unchanged. -/
theorem makeNode_idempotent_witness :
    (isCorrespondingNode (initialState 3) 1 = false →
        makeNode sc3 (initialState 3) 1 none =
          ({ initialState 3 with
              nodes := [{ vertexId := 1, terminaison := none, upArcs := [], downArcs := [] }]
              vert2tree := (List.replicate 3 Corresp.nil).set 1 (Corresp.node 0) },
            some 0)) ∧
    makeNode sc3 (makeNode sc3 (initialState 3) 1 none).1 1 none =
      makeNode sc3 (initialState 3) 1 none := by
  have h := makeNode_idempotent sc3 (initialState 3) 1 none (by decide) (by decide)
  refine ⟨?_, h.2.2⟩
  intro hf
  simpa [initialState] using h.2.1 hf

/-! ### C8: guard of closeSuperArc -/

/-- C8: in a safe-mode build, `closeSuperArc` with an out-of-range arc or
node id leaves the tree unchanged; with valid ids it sets the arc's up
node and appends the arc to that node's down-arc list, touching nothing
else. -/
theorem closeSuperArc_guard_spec (s : MTState) (a u : Nat) :
    ((s.superArcs.length ≤ a ∨ s.nodes.length ≤ u) → closeSuperArc s a u = s) ∧
    (a < s.superArcs.length → u < s.nodes.length →
      ((closeSuperArc s a u).superArcs.getD a default).upNodeId = some u ∧
      ((closeSuperArc s a u).superArcs.getD a default).downNodeId =
        (s.superArcs.getD a default).downNodeId ∧
      (∀ b, b ≠ a → (closeSuperArc s a u).superArcs.getD b default =
        s.superArcs.getD b default) ∧
      ((closeSuperArc s a u).nodes.getD u default).downArcs =
        (s.nodes.getD u default).downArcs ++ [a] ∧
      ((closeSuperArc s a u).nodes.getD u default).vertexId =
        (s.nodes.getD u default).vertexId ∧
      (∀ m, m ≠ u → (closeSuperArc s a u).nodes.getD m default = s.nodes.getD m default) ∧
      (closeSuperArc s a u).vert2tree = s.vert2tree ∧
      (closeSuperArc s a u).superArcs.length = s.superArcs.length ∧
      (closeSuperArc s a u).nodes.length = s.nodes.length) := by
  constructor
  · intro h
    rcases h with h | h
    · simp [closeSuperArc, h]
    · have : ¬ s.superArcs.length ≤ a ∨ s.superArcs.length ≤ a := em' _
      by_cases h1 : s.superArcs.length ≤ a
      · simp [closeSuperArc, h1]
      · simp [closeSuperArc, h1, h]
  · intro ha hu
    have h1 : ¬ s.superArcs.length ≤ a := by omega
    have h2 : ¬ s.nodes.length ≤ u := by omega
    have hdef : closeSuperArc s a u =
        { s with
            superArcs := s.superArcs.set a
              { s.superArcs.getD a default with upNodeId := some u }
            nodes := s.nodes.set u
              { s.nodes.getD u default with
                  downArcs := (s.nodes.getD u default).downArcs ++ [a] } } := by
      rw [closeSuperArc]
      simp [h1, h2, modifyArc, modifyNode]
    rw [hdef]
    refine ⟨?_, ?_, ?_, ?_, ?_, ?_, ?_, ?_, ?_⟩
    · show ((s.superArcs.set a _).getD a default).upNodeId = some u
      rw [getD_set_self ha]
    · show ((s.superArcs.set a _).getD a default).downNodeId = _
      rw [getD_set_self ha]
    · intro b hb
      show (s.superArcs.set a _).getD b default = _
      exact getD_set_ne _ _ (fun hh => hb hh.symm)
    · show ((s.nodes.set u _).getD u default).downArcs = _
      rw [getD_set_self hu]
    · show ((s.nodes.set u _).getD u default).vertexId = _
      rw [getD_set_self hu]
    · intro m hm
      show (s.nodes.set u _).getD m default = _
      exact getD_set_ne _ _ (fun hh => hm hh.symm)
    · rfl
    · show (s.superArcs.set a _).length = _
      simp
    · show (s.nodes.set u _).length = _
      simp

/-- C8 witness: on a one-node one-arc fixture, arc id 2 is rejected
without modification, and closing arc 0 on node 0 records the arc in the
node's down list. -/
theorem closeSuperArc_guard_spec_witness :
    closeSuperArc fixOneArc 2 0 = fixOneArc ∧
    ((closeSuperArc fixOneArc 0 0).superArcs.getD 0 default).upNodeId = some 0 ∧
    ((closeSuperArc fixOneArc 0 0).nodes.getD 0 default).downArcs = [0] := by
  refine ⟨(closeSuperArc_guard_spec fixOneArc 2 0).1 (Or.inl (by decide)), ?_, ?_⟩
  · exact ((closeSuperArc_guard_spec fixOneArc 0 0).2 (by decide) (by decide)).1
  · have h := ((closeSuperArc_guard_spec fixOneArc 0 0).2 (by decide) (by decide)).2.2.2.1
    simpa [fixOneArc] using h

/-! ### C9: delNode on a root with several children -/

/-- C9: `delNode` on a root node (no up super-arcs) with more than one
down super-arc is a logged no-op — the whole tree state is returned
unchanged. -/
theorem delNode_multiRoot_noop (s : MTState) (n : Nat)
    (hup : (s.nodes.getD n default).upArcs.length = 0)
    (hdown : 1 < (s.nodes.getD n default).downArcs.length) :
    delNode s n = s := by
  have hup2 : (s.nodes[n]?.getD default).upArcs = [] := by
    simpa using List.length_eq_zero.mp hup
  have h1 : ¬ (s.nodes[n]?.getD default).downArcs.length = 1 := by
    have h2 := hdown
    simp only [List.getD_eq_getElem?_getD] at h2
    omega
  simp [delNode, hup2, h1]

/-- C9 witness: deleting the two-child root of the fixture changes
nothing. -/
theorem delNode_multiRoot_noop_witness : delNode fixRoot2 0 = fixRoot2 :=
  delNode_multiRoot_noop fixRoot2 0 (by decide) (by decide)

/-! ### C2: the capture-and-decrement of propage -/

/-- Effect of one neighbor iteration of `propage` on the fields the
valence capture depends on: the union-find entries, the parent links and
the valences are untouched, and `decr` grows by one exactly on a lower
neighbor whose entry finds to the current representative. -/
theorem propageStep_effect (lower : Nat → Nat → Bool) (curUFF v : Nat)
    (acc : PropLoop) (n : Nat) :
    (propageStep lower curUFF v acc n).mt.ufs = acc.mt.ufs ∧
    (propageStep lower curUFF v acc n).mt.ufParent = acc.mt.ufParent ∧
    (propageStep lower curUFF v acc n).mt.valences = acc.mt.valences ∧
    (propageStep lower curUFF v acc n).decr = acc.decr +
      (if sameClassPred lower curUFF acc.mt.ufs acc.mt.ufParent v n = true then 1 else 0) := by
  unfold propageStep sameClassPred
  by_cases h : lower n v = true
  · cases hm : acc.mt.ufs.getD n none with
    | none => simp [h, hm]
    | some u =>
      by_cases hf : ufFind acc.mt.ufParent u = curUFF
      · simp [h, hm, hf]
      · simp [h, hm, hf]
  · have h2 : lower n v = false := by simpa using h
    cases hp : acc.mt.propagation.getD n none with
    | none => simp [h2, hp]
    | some p =>
      by_cases hf : ufFind acc.mt.ufParent p = curUFF
      · simp [h2, hp, hf]
      · simp [h2, hp, hf]

/-- The neighbor loop of `propage` leaves union-find entries, parent
links and valences untouched and accumulates into `decr` the count of
lower neighbors already in the current class. -/
theorem propageStep_fold (lower : Nat → Nat → Bool) (curUFF v : Nat) :
    ∀ (l : List Nat) (acc : PropLoop),
      (l.foldl (propageStep lower curUFF v) acc).mt.ufs = acc.mt.ufs ∧
      (l.foldl (propageStep lower curUFF v) acc).mt.ufParent = acc.mt.ufParent ∧
      (l.foldl (propageStep lower curUFF v) acc).mt.valences = acc.mt.valences ∧
      (l.foldl (propageStep lower curUFF v) acc).decr = acc.decr +
        (l.countP (sameClassPred lower curUFF acc.mt.ufs acc.mt.ufParent v) : Nat)
  | [], acc => by simp
  | n :: l, acc => by
    obtain ⟨h1, h2, h3, h4⟩ := propageStep_effect lower curUFF v acc n
    obtain ⟨i1, i2, i3, i4⟩ :=
      propageStep_fold lower curUFF v l (propageStep lower curUFF v acc n)
    rw [List.foldl_cons]
    refine ⟨by rw [i1, h1], by rw [i2, h2], by rw [i3, h3], ?_⟩
    rw [i4, h4, h1, h2, List.countP_cons]
    cases hb : sameClassPred lower curUFF acc.mt.ufs acc.mt.ufParent v n with
    | false => simp
    | true =>
      simp only [if_pos rfl, Nat.cast_add, Nat.cast_ite, Nat.cast_one, Nat.cast_zero]
      ring

/-- C2: `propage` atomically captures the pre-decrement valence of the
current vertex while subtracting `decr` — the number of lower-in-sweep
neighbors whose union-find entry belongs to the current class — and
returns `isLast = true` exactly when the pre-decrement value equals
`decr`. -/
theorem propage_capture_spec (lower : Nat → Nat → Bool) (neighbors : Nat → List Nat)
    (s : MTState) (cs : CurrentState) (curUF : Nat)
    (hv : cs.vertex < s.valences.length) :
    ((propage lower neighbors s cs curUF).isLast = true ↔
      s.valences.getD cs.vertex 0 =
        (ufsSameClassCount lower neighbors s (ufFind s.ufParent curUF) cs.vertex : Int)) ∧
    (propage lower neighbors s cs curUF).mt.valences.getD cs.vertex 0 =
      s.valences.getD cs.vertex 0 -
        (ufsSameClassCount lower neighbors s (ufFind s.ufParent curUF) cs.vertex : Int) := by
  obtain ⟨h1, h2, h3, h4⟩ := propageStep_fold lower (ufFind s.ufParent curUF) cs.vertex
    (neighbors cs.vertex) { mt := s, cs := cs, becameSaddle := false, decr := 0 }
  have hcount : ((neighbors cs.vertex).foldl
      (propageStep lower (ufFind s.ufParent curUF) cs.vertex)
      { mt := s, cs := cs, becameSaddle := false, decr := 0 }).decr =
      (ufsSameClassCount lower neighbors s (ufFind s.ufParent curUF) cs.vertex : Int) := by
    rw [h4]
    rw [ufsSameClassCount, List.countP_filter]
    simp only [zero_add]
    congr 2
    funext n
    rw [sameClassPred]
    exact Bool.and_comm _ _
  constructor
  · show ((propage lower neighbors s cs curUF).isLast = true ↔ _)
    rw [propage]
    simp only []
    rw [hcount, h3]
    simp [beq_iff_eq]
  · show (propage lower neighbors s cs curUF).mt.valences.getD cs.vertex 0 = _
    rw [propage]
    simp only []
    rw [hcount, h3]
    have hv2 : cs.vertex < s.valences.length := hv
    rw [getD_set_self hv2]

/-- C2 witness: the front of class 0 arriving at vertex 2 of the chain
fixture, where one lower neighbor is owned by the same class and one by a
foreign class. -/
theorem propage_capture_spec_witness :
    ((propage natLower chainNeighbors fixProp { vertex := 2, queue := [] } 0).isLast = true ↔
      fixProp.valences.getD 2 0 =
        (ufsSameClassCount natLower chainNeighbors fixProp (ufFind fixProp.ufParent 0) 2 : Int)) ∧
    (propage natLower chainNeighbors fixProp { vertex := 2, queue := [] } 0).mt.valences.getD 2 0 =
      fixProp.valences.getD 2 0 -
        (ufsSameClassCount natLower chainNeighbors fixProp (ufFind fixProp.ufParent 0) 2 : Int) :=
  propage_capture_spec natLower chainNeighbors fixProp { vertex := 2, queue := [] } 0 (by decide)

/-! ### C3: the precompute phase -/

/-- Invariant of the vertex scan of `precompute`: after the first `k`
vertices, the created nodes are exactly the zero-valence vertices among
them in order, `vert2tree` marks exactly those as nodes, and the valences
of the first `k` vertices hold their lower-neighbor counts. -/
theorem precompute_fold_inv (sc : Scalars) (lower : Nat → Nat → Bool)
    (neighbors : Nat → List Nat) (s0 : MTState)
    (hnodes : s0.nodes = [])
    (hv2t : s0.vert2tree = List.replicate sc.size Corresp.nil)
    (hval : s0.valences = List.replicate sc.size 0) :
    ∀ k, k ≤ sc.size →
      ((List.range k).foldl (precomputeStep sc lower neighbors) s0).nodes.map
          (fun nd => nd.vertexId) =
        (List.range k).filter (fun v => lowerValence lower neighbors v == 0) ∧
      (∀ v, v < k → lowerValence lower neighbors v = 0 →
        isCorrespondingNode ((List.range k).foldl (precomputeStep sc lower neighbors) s0) v
          = true) ∧
      (∀ v, ¬ (v < k ∧ lowerValence lower neighbors v = 0) →
        getCorresp ((List.range k).foldl (precomputeStep sc lower neighbors) s0) v
          = Corresp.nil) ∧
      ((List.range k).foldl (precomputeStep sc lower neighbors) s0).vert2tree.length
        = sc.size ∧
      ((List.range k).foldl (precomputeStep sc lower neighbors) s0).valences.length
        = sc.size ∧
      (∀ v, ((List.range k).foldl (precomputeStep sc lower neighbors) s0).valences.getD v 0
        = if v < k then (lowerValence lower neighbors v : Int) else 0) := by
  intro k
  induction k with
  | zero =>
    intro _
    refine ⟨by simp [hnodes], by omega, ?_, by simp [hv2t], by simp [hval], ?_⟩
    · intro v _
      simp only [List.range_zero, List.foldl_nil]
      rw [getCorresp, hv2t]
      rcases Nat.lt_or_ge v sc.size with h | h
      · rw [List.getD_eq_getElem?_getD]
        simp [List.getElem?_replicate, h]
      · rw [List.getD_eq_getElem?_getD, List.getElem?_eq_none (by simpa using h)]
        rfl
    · intro v
      simp only [List.range_zero, List.foldl_nil]
      rw [hval]
      rcases Nat.lt_or_ge v sc.size with h | h
      · rw [List.getD_eq_getElem?_getD]
        simp [List.getElem?_replicate, h]
      · rw [List.getD_eq_getElem?_getD, List.getElem?_eq_none (by simpa using h)]
        simp
  | succ k ih =>
    intro hk1
    have hk : k ≤ sc.size := by omega
    have hksz : k < sc.size := by omega
    obtain ⟨iA, iB, iC, iD, iE, iF⟩ := ih hk
    have hstep : (List.range (k + 1)).foldl (precomputeStep sc lower neighbors) s0 =
        precomputeStep sc lower neighbors
          ((List.range k).foldl (precomputeStep sc lower neighbors) s0) k := by
      rw [List.range_succ, List.foldl_append, List.foldl_cons, List.foldl_nil]
    set sk := (List.range k).foldl (precomputeStep sc lower neighbors) s0 with hsk
    by_cases hz : lowerValence lower neighbors k = 0
    · -- a new leaf node is created on k
      have hzInt : ((lowerValence lower neighbors k : Int) = 0) := by
        exact_mod_cast hz
      have hnil : getCorresp sk k = Corresp.nil := iC k (by omega)
      have hnotnode : isCorrespondingNode sk k = false := by
        simp [isCorrespondingNode, hnil]
      have hguard : ¬ sc.size ≤ k := by omega
      have hnotnode2 : isCorrespondingNode
          { sk with valences := sk.valences.set k (lowerValence lower neighbors k : Int) } k
          = false := by
        simpa [isCorrespondingNode, getCorresp] using hnotnode
      have hdef : precomputeStep sc lower neighbors sk k =
          { sk with
              valences := sk.valences.set k (lowerValence lower neighbors k : Int)
              nodes := sk.nodes ++
                [{ vertexId := k, terminaison := none, upArcs := [], downArcs := [] }]
              vert2tree := sk.vert2tree.set k (Corresp.node sk.nodes.length) } := by
        simp only [precomputeStep]
        rw [if_pos hzInt, makeNode, if_neg hguard]
        rw [if_neg (by simp [hnotnode2])]
        simp [updateCorrespondingNode]
      rw [hstep, hdef]
      have hklen : k < sk.vert2tree.length := by omega
      refine ⟨?_, ?_, ?_, by simpa using iD, by simpa using iE, ?_⟩
      · show (sk.nodes ++
            ([{ vertexId := k, terminaison := none, upArcs := [], downArcs := [] }] :
              List Node)).map (fun nd => nd.vertexId) = _
        rw [List.map_append, iA, List.range_succ, List.filter_append]
        simp [hz]
      · intro v hv hvz
        rcases Nat.lt_or_ge v k with hvk | hvk
        · have h := iB v hvk hvz
          simp only [isCorrespondingNode, getCorresp] at h ⊢
          rw [getD_set_ne _ _ (by omega : k ≠ v)]
          exact h
        · have hvek : v = k := by omega
          subst hvek
          simp only [isCorrespondingNode, getCorresp]
          rw [getD_set_self hklen]
      · intro v hnv
        have hvk : v ≠ k := by
          intro h
          exact hnv ⟨by omega, by rw [h]; exact hz⟩
        have h := iC v (by
          intro hcon
          exact hnv ⟨by omega, hcon.2⟩)
        simp only [getCorresp] at h ⊢
        rw [getD_set_ne _ _ (fun hh => hvk hh.symm)]
        exact h
      · intro v
        rcases eq_or_ne v k with hvek | hvek
        · subst hvek
          have hvlen : v < sk.valences.length := by omega
          show (sk.valences.set v (lowerValence lower neighbors v : Int)).getD v 0 = _
          rw [getD_set_self hvlen, if_pos (Nat.lt_succ_self v)]
        · show (sk.valences.set k (lowerValence lower neighbors k : Int)).getD v 0 = _
          rw [getD_set_ne _ _ (fun hh => hvek hh.symm), iF v]
          by_cases hvk : v < k
          · rw [if_pos hvk, if_pos (by omega)]
          · rw [if_neg hvk, if_neg (by omega)]
    · -- no node: only the valence is written
      have hzInt : ¬ ((lowerValence lower neighbors k : Int) = 0) := by
        exact_mod_cast hz
      have hdef : precomputeStep sc lower neighbors sk k =
          { sk with valences := sk.valences.set k (lowerValence lower neighbors k : Int) } := by
        rw [precomputeStep]
        simp [hzInt]
      rw [hstep, hdef]
      refine ⟨?_, ?_, ?_, by simpa using iD, by simpa using iE, ?_⟩
      · show sk.nodes.map (fun nd => nd.vertexId) = _
        rw [iA, List.range_succ, List.filter_append]
        have hpk : (lowerValence lower neighbors k == 0) = false := by
          simpa using hz
        simp [hpk]
      · intro v hv hvz
        have hvk : v < k := by
          rcases Nat.lt_or_ge v k with h | h
          · exact h
          · exact absurd (by omega : v = k) (fun he => hz (he ▸ hvz))
        have h := iB v hvk hvz
        simp only [isCorrespondingNode, getCorresp] at h ⊢
        exact h
      · intro v hnv
        have h := iC v (by
          intro hcon
          exact hnv ⟨by omega, hcon.2⟩)
        simp only [getCorresp] at h ⊢
        exact h
      · intro v
        rcases eq_or_ne v k with hvek | hvek
        · subst hvek
          have hvlen : v < sk.valences.length := by omega
          show (sk.valences.set v (lowerValence lower neighbors v : Int)).getD v 0 = _
          rw [getD_set_self hvlen, if_pos (Nat.lt_succ_self v)]
        · show (sk.valences.set k (lowerValence lower neighbors k : Int)).getD v 0 = _
          rw [getD_set_ne _ _ (fun hh => hvek hh.symm), iF v]
          by_cases hvk : v < k
          · rw [if_pos hvk, if_pos (by omega)]
          · rw [if_neg hvk, if_neg (by omega)]

/-- C3: after `precompute` on a fresh tree, every vertex's valence is its
lower-in-sweep neighbor count, a leaf node exists for a vertex exactly
when that count is zero (the created nodes being exactly the zero-valence
vertices in scan order), and the leaves list is `[0, nbLeaves)`. -/
theorem precompute_spec (sc : Scalars) (lower : Nat → Nat → Bool)
    (neighbors : Nat → List Nat) (s0 : MTState)
    (hnodes : s0.nodes = [])
    (hv2t : s0.vert2tree = List.replicate sc.size Corresp.nil)
    (hval : s0.valences = List.replicate sc.size 0) :
    (∀ v, v < sc.size →
      (precompute sc lower neighbors s0).valences.getD v 0 =
        (lowerValence lower neighbors v : Int)) ∧
    (∀ v, v < sc.size →
      (isCorrespondingNode (precompute sc lower neighbors s0) v = true ↔
        lowerValence lower neighbors v = 0)) ∧
    (precompute sc lower neighbors s0).nodes.map (fun nd => nd.vertexId) =
      (List.range sc.size).filter (fun v => lowerValence lower neighbors v == 0) ∧
    (precompute sc lower neighbors s0).leaves =
      List.range (precompute sc lower neighbors s0).nodes.length := by
  obtain ⟨iA, iB, iC, iD, iE, iF⟩ :=
    precompute_fold_inv sc lower neighbors s0 hnodes hv2t hval sc.size (Nat.le_refl _)
  have hlen0 : s0.nodes.length = 0 := by rw [hnodes]; rfl
  set sk := (List.range sc.size).foldl (precomputeStep sc lower neighbors) s0 with hsk
  have hpre : precompute sc lower neighbors s0 =
      { sk with leaves := List.range sk.nodes.length } := by
    rw [precompute]
    simp [hlen0, hsk]
  have hv2tEq : (precompute sc lower neighbors s0).vert2tree = sk.vert2tree := by rw [hpre]
  have hvalEq : (precompute sc lower neighbors s0).valences = sk.valences := by rw [hpre]
  have hnodesEq : (precompute sc lower neighbors s0).nodes = sk.nodes := by rw [hpre]
  have hleavesEq : (precompute sc lower neighbors s0).leaves =
      List.range sk.nodes.length := by rw [hpre]
  have hgc : ∀ v, getCorresp (precompute sc lower neighbors s0) v = getCorresp sk v := by
    intro v
    rw [getCorresp, getCorresp, hv2tEq]
  refine ⟨?_, ?_, ?_, ?_⟩
  · intro v hv
    rw [hvalEq, iF v, if_pos hv]
  · intro v hv
    constructor
    · intro hnode
      by_contra hnz
      have hnil := iC v (fun hcon => hnz hcon.2)
      rw [isCorrespondingNode, hgc, hnil] at hnode
      simp at hnode
    · intro hz
      have h := iB v hv hz
      rw [isCorrespondingNode, hgc]
      rw [isCorrespondingNode] at h
      exact h
  · rw [hnodesEq]
    exact iA
  · rw [hleavesEq, hnodesEq]

/-! ### Stability lemmas for the sweep loop (used by the saddle and skip
claims) -/

/-- One neighbor iteration of `propage` only writes the propagation map
(and the loop accumulator): every other tree-state component is stable. -/
theorem propageStep_mt_stable (lower : Nat → Nat → Bool) (curUFF v : Nat)
    (acc : PropLoop) (n : Nat) :
    (propageStep lower curUFF v acc n).mt.vert2tree = acc.mt.vert2tree ∧
    (propageStep lower curUFF v acc n).mt.openedNodes = acc.mt.openedNodes ∧
    (propageStep lower curUFF v acc n).mt.superArcs = acc.mt.superArcs ∧
    (propageStep lower curUFF v acc n).mt.nodes = acc.mt.nodes ∧
    (propageStep lower curUFF v acc n).mt.activeTasks = acc.mt.activeTasks := by
  unfold propageStep
  by_cases h : lower n v = true
  · cases hm : acc.mt.ufs.getD n none with
    | none => simp [h, hm]
    | some u =>
      by_cases hf : ufFind acc.mt.ufParent u = curUFF
      · simp [h, hm, hf]
      · simp [h, hm, hf]
  · have h2 : lower n v = false := by simpa using h
    cases hp : acc.mt.propagation.getD n none with
    | none => simp [h2, hp]
    | some p =>
      by_cases hf : ufFind acc.mt.ufParent p = curUFF
      · simp [h2, hp, hf]
      · simp [h2, hp, hf]

/-- The neighbor loop of `propage` is stable on every component but the
propagation map. -/
theorem propageFold_mt_stable (lower : Nat → Nat → Bool) (curUFF v : Nat) :
    ∀ (l : List Nat) (acc : PropLoop),
      (l.foldl (propageStep lower curUFF v) acc).mt.vert2tree = acc.mt.vert2tree ∧
      (l.foldl (propageStep lower curUFF v) acc).mt.openedNodes = acc.mt.openedNodes ∧
      (l.foldl (propageStep lower curUFF v) acc).mt.superArcs = acc.mt.superArcs ∧
      (l.foldl (propageStep lower curUFF v) acc).mt.nodes = acc.mt.nodes ∧
      (l.foldl (propageStep lower curUFF v) acc).mt.activeTasks = acc.mt.activeTasks
  | [], acc => by simp
  | n :: l, acc => by
    obtain ⟨h1, h2, h3, h4, h5⟩ := propageStep_mt_stable lower curUFF v acc n
    obtain ⟨i1, i2, i3, i4, i5⟩ :=
      propageFold_mt_stable lower curUFF v l (propageStep lower curUFF v acc n)
    rw [List.foldl_cons]
    exact ⟨by rw [i1, h1], by rw [i2, h2], by rw [i3, h3], by rw [i4, h4], by rw [i5, h5]⟩

/-- `propage` writes only the propagation map and the current vertex's
valence: the tree skeleton, the bitmap and the task counter are stable. -/
theorem propage_preserves (lower : Nat → Nat → Bool) (neighbors : Nat → List Nat)
    (s : MTState) (cs : CurrentState) (curUF : Nat) :
    (propage lower neighbors s cs curUF).mt.vert2tree = s.vert2tree ∧
    (propage lower neighbors s cs curUF).mt.openedNodes = s.openedNodes ∧
    (propage lower neighbors s cs curUF).mt.superArcs = s.superArcs ∧
    (propage lower neighbors s cs curUF).mt.nodes = s.nodes ∧
    (propage lower neighbors s cs curUF).mt.activeTasks = s.activeTasks ∧
    (propage lower neighbors s cs curUF).mt.ufs =
      ((neighbors cs.vertex).foldl
        (propageStep lower (ufFind s.ufParent curUF) cs.vertex)
        { mt := s, cs := cs, becameSaddle := false, decr := 0 }).mt.ufs := by
  obtain ⟨i1, i2, i3, i4, i5⟩ := propageFold_mt_stable lower (ufFind s.ufParent curUF)
    cs.vertex (neighbors cs.vertex) { mt := s, cs := cs, becameSaddle := false, decr := 0 }
  rw [propage]
  exact ⟨i1, i2, i3, i4, i5, rfl⟩

/-- C3 witness: on the three-chain with id scalars, vertex 0 is the only
local minimum: valences `[0, 1, 1]`, a single node on vertex 0, leaves
`[0]`. -/
theorem precompute_spec_witness :
    (∀ v, v < sc3.size →
      (precompute sc3 natLower chainNeighbors (initialState 3)).valences.getD v 0 =
        (lowerValence natLower chainNeighbors v : Int)) ∧
    (∀ v, v < sc3.size →
      (isCorrespondingNode (precompute sc3 natLower chainNeighbors (initialState 3)) v = true ↔
        lowerValence natLower chainNeighbors v = 0)) ∧
    (precompute sc3 natLower chainNeighbors (initialState 3)).nodes.map
        (fun nd => nd.vertexId) =
      (List.range sc3.size).filter (fun v => lowerValence natLower chainNeighbors v == 0) ∧
    (precompute sc3 natLower chainNeighbors (initialState 3)).leaves =
      List.range (precompute sc3 natLower chainNeighbors (initialState 3)).nodes.length :=
  precompute_spec sc3 natLower chainNeighbors (initialState 3) (by decide) (by decide) (by decide)

/-! ### C1: the saddle case of the leaf-task sweep -/

/-- C1: when the popped vertex of a leaf task turns out to be a saddle,
the task marks it in the opened-nodes bitmap and then: if it is not the
last arrival, it decrements the active-task counter and returns; if it is
the last arrival and the active-task counter reads 1, it returns leaving
the saddle marked for the trunk, closing nothing; otherwise it performs
`closeAndMergeOnSaddle` on the saddle, clears the saddle's opened-nodes
bit, and continues from the saddle at depth `d + 1`. -/
theorem saddle_case_spec (sc : Scalars) (lower : Nat → Nat → Bool)
    (neighbors : Nat → List Nat) (t : TaskState) (d cur : Nat) (popped : CurrentState)
    (hpop : getNextMinVertex lower t.state = some (cur, popped))
    (hacc : isCorrespondingNull t.mt cur = true ∨ isCorrespondingNode t.mt cur = true)
    (hdup : ¬ (cur = t.startVert ∧ t.seenFirst = true))
    (hsaddle : (propage lower neighbors t.mt popped t.startUF).becameSaddle = true)
    (hcur : cur < t.mt.openedNodes.length) :
    ((propage lower neighbors t.mt popped t.startUF).isLast = false →
      processStep sc lower neighbors t d =
        StepOutcome.saddleNotLast
          { mt :=
              { (propage lower neighbors t.mt popped t.startUF).mt with
                  ufs := (propage lower neighbors t.mt popped t.startUF).mt.ufs.set cur
                    (some t.startUF)
                  openedNodes := t.mt.openedNodes.set cur true
                  activeTasks := t.mt.activeTasks - 1 }
            state := (propage lower neighbors t.mt popped t.startUF).state
            seenFirst := if cur = t.startVert then true else t.seenFirst
            currentArc := t.currentArc
            startVert := t.startVert
            startUF := t.startUF } cur) ∧
    ((propage lower neighbors t.mt popped t.startUF).isLast = true →
      t.mt.activeTasks = 1 →
      processStep sc lower neighbors t d =
        StepOutcome.saddleLastAlone
          { mt :=
              { (propage lower neighbors t.mt popped t.startUF).mt with
                  ufs := (propage lower neighbors t.mt popped t.startUF).mt.ufs.set cur
                    (some t.startUF)
                  openedNodes := t.mt.openedNodes.set cur true }
            state := (propage lower neighbors t.mt popped t.startUF).state
            seenFirst := if cur = t.startVert then true else t.seenFirst
            currentArc := t.currentArc
            startVert := t.startVert
            startUF := t.startUF } cur ∧
      (t.mt.openedNodes.set cur true).getD cur false = true ∧
      (propage lower neighbors t.mt popped t.startUF).mt.superArcs = t.mt.superArcs ∧
      (propage lower neighbors t.mt popped t.startUF).mt.nodes = t.mt.nodes) ∧
    ((propage lower neighbors t.mt popped t.startUF).isLast = true →
      t.mt.activeTasks ≠ 1 →
      processStep sc lower neighbors t d =
        StepOutcome.saddleMerge
          { mt :=
              { closeAndMergeOnSaddle sc lower neighbors
                  { (propage lower neighbors t.mt popped t.startUF).mt with
                      ufs := (propage lower neighbors t.mt popped t.startUF).mt.ufs.set cur
                        (some t.startUF)
                      openedNodes := t.mt.openedNodes.set cur true } cur with
                  openedNodes :=
                    (closeAndMergeOnSaddle sc lower neighbors
                      { (propage lower neighbors t.mt popped t.startUF).mt with
                          ufs := (propage lower neighbors t.mt popped t.startUF).mt.ufs.set cur
                            (some t.startUF)
                          openedNodes := t.mt.openedNodes.set cur true } cur).openedNodes.set
                      cur false }
            state := (propage lower neighbors t.mt popped t.startUF).state
            seenFirst := if cur = t.startVert then true else t.seenFirst
            currentArc := t.currentArc
            startVert := t.startVert
            startUF := t.startUF } cur (d + 1)) := by
  obtain ⟨hv2t, hop, hsa, hnd, hat, hufs⟩ :=
    propage_preserves lower neighbors t.mt popped t.startUF
  have hskipcond : (!isCorrespondingNull t.mt cur && !isCorrespondingNode t.mt cur) = false := by
    rcases hacc with h | h
    · simp [h]
    · simp [h]
  have hstep : processStep sc lower neighbors t d =
      processAccept sc lower neighbors
        { t with state := popped,
                 seenFirst := if cur = t.startVert then true else t.seenFirst } cur d := by
    simp only [processStep, hpop]
    rw [hskipcond]
    by_cases hc : cur = t.startVert
    · have hsf : t.seenFirst = false := by
        cases hsf : t.seenFirst
        · rfl
        · exact absurd ⟨hc, hsf⟩ hdup
      rw [if_neg (by simp), if_pos hc, hsf, if_pos hc]
      rfl
    · rw [if_neg (by simp), if_neg hc, if_neg hc]
  refine ⟨?_, ?_, ?_⟩
  · intro hlast
    rw [hstep]
    simp only [processAccept, hsaddle, if_pos rfl, hlast]
    rw [hop, hat]
    simp
  · intro hlast hone
    rw [hstep]
    refine ⟨?_, getD_set_self hcur, hsa, hnd⟩
    simp only [processAccept, hsaddle, if_pos rfl, hlast]
    rw [hop, hat]
    simp [hone]
  · intro hlast hone
    rw [hstep]
    simp only [processAccept, hsaddle, if_pos rfl, hlast]
    rw [hop, hat]
    simp [hone]

/-- C1 witness: the task of leaf 0 popping the saddle vertex 2 while a
foreign front owns vertex 1: it is not the last arrival, so it decrements
the active-task counter, leaves the saddle marked, and returns. -/
theorem saddle_case_spec_witness :
    ∃ t1, processStep sc3 natLower chainNeighbors fixTask 0 =
        StepOutcome.saddleNotLast t1 2 ∧
      t1.mt.activeTasks = fixTask.mt.activeTasks - 1 ∧
      t1.mt.openedNodes.getD 2 false = true := by
  have h := (saddle_case_spec sc3 natLower chainNeighbors fixTask 0 2
      { vertex := 2, queue := [] } (by decide) (by decide) (by decide) (by decide)
      (by decide)).1 (by decide)
  exact ⟨_, h, by decide, by decide⟩

/-! ### C4: the duplicate guards of the sweep loop -/

/-- The accept test of the sweep loop: "neither nil nor a node" is
exactly "records an arc". -/
theorem not_null_not_node_eq_arc (s : MTState) (v : Nat) :
    (!isCorrespondingNull s v && !isCorrespondingNode s v) = isCorrespondingArc s v := by
  rw [isCorrespondingNull, isCorrespondingNode, isCorrespondingArc]
  cases getCorresp s v <;> rfl

/-- An arc entry is not a node entry. -/
theorem arc_not_node (s : MTState) (v : Nat) :
    isCorrespondingArc s v = true → isCorrespondingNode s v = false := by
  rw [isCorrespondingArc, isCorrespondingNode]
  cases getCorresp s v <;> simp

/-- `processAccept` always produces the accepted vertex in one of the
four propagated outcomes (never a skip or a drain), keeping the task's
start vertex and seen-first flag, and in the regular outcome it never
demotes the start vertex's node entry. -/
theorem processAccept_shape (sc : Scalars) (lower : Nat → Nat → Bool)
    (neighbors : Nat → List Nat) (tS : TaskState) (cur d : Nat) :
    (∃ t1, processAccept sc lower neighbors tS cur d = StepOutcome.regular t1 cur ∧
      t1.startVert = tS.startVert ∧ t1.seenFirst = tS.seenFirst ∧
      (isCorrespondingNode tS.mt tS.startVert = true →
        isCorrespondingNode t1.mt tS.startVert = true)) ∨
    (∃ t1, processAccept sc lower neighbors tS cur d = StepOutcome.saddleNotLast t1 cur ∧
      t1.startVert = tS.startVert ∧ t1.seenFirst = tS.seenFirst) ∨
    (∃ t1, processAccept sc lower neighbors tS cur d = StepOutcome.saddleLastAlone t1 cur ∧
      t1.startVert = tS.startVert ∧ t1.seenFirst = tS.seenFirst) ∨
    (∃ t1 dn, processAccept sc lower neighbors tS cur d = StepOutcome.saddleMerge t1 cur dn ∧
      t1.startVert = tS.startVert ∧ t1.seenFirst = tS.seenFirst) := by
  obtain ⟨hv2t, hop, hsa, hnd, hat, hufs⟩ :=
    propage_preserves lower neighbors tS.mt tS.state tS.startUF
  by_cases hb : (propage lower neighbors tS.mt tS.state tS.startUF).becameSaddle = true
  · by_cases hl : (propage lower neighbors tS.mt tS.state tS.startUF).isLast = true
    · by_cases h1 :
        (propage lower neighbors tS.mt tS.state tS.startUF).mt.activeTasks = 1
      · have he : processAccept sc lower neighbors tS cur d =
            StepOutcome.saddleLastAlone
              { tS with
                  mt := { (propage lower neighbors tS.mt tS.state tS.startUF).mt with
                      ufs := (propage lower neighbors tS.mt tS.state tS.startUF).mt.ufs.set
                        cur (some tS.startUF)
                      openedNodes :=
                        (propage lower neighbors
                          tS.mt tS.state tS.startUF).mt.openedNodes.set cur true }
                  state := (propage lower neighbors tS.mt tS.state tS.startUF).state }
              cur := by
          simp only [processAccept, hb, if_pos rfl, hl]
          simp [h1]
        exact Or.inr (Or.inr (Or.inl ⟨_, he, rfl, rfl⟩))
      · have he : processAccept sc lower neighbors tS cur d =
            StepOutcome.saddleMerge
              { tS with
                  mt :=
                    { closeAndMergeOnSaddle sc lower neighbors
                        { (propage lower neighbors tS.mt tS.state tS.startUF).mt with
                            ufs := (propage lower neighbors
                              tS.mt tS.state tS.startUF).mt.ufs.set cur (some tS.startUF)
                            openedNodes :=
                              (propage lower neighbors
                                tS.mt tS.state tS.startUF).mt.openedNodes.set cur true }
                        cur with
                        openedNodes :=
                          (closeAndMergeOnSaddle sc lower neighbors
                            { (propage lower neighbors tS.mt tS.state tS.startUF).mt with
                                ufs := (propage lower neighbors
                                  tS.mt tS.state tS.startUF).mt.ufs.set cur
                                  (some tS.startUF)
                                openedNodes :=
                                  (propage lower neighbors
                                    tS.mt tS.state tS.startUF).mt.openedNodes.set cur true }
                            cur).openedNodes.set cur false }
                  state := (propage lower neighbors tS.mt tS.state tS.startUF).state }
              cur (d + 1) := by
          simp only [processAccept, hb, if_pos rfl, hl]
          simp [h1]
        exact Or.inr (Or.inr (Or.inr ⟨_, d + 1, he, rfl, rfl⟩))
    · have hl0 : (propage lower neighbors tS.mt tS.state tS.startUF).isLast = false := by
        simpa using hl
      have he : processAccept sc lower neighbors tS cur d =
          StepOutcome.saddleNotLast
            { tS with
                mt := { (propage lower neighbors tS.mt tS.state tS.startUF).mt with
                    ufs := (propage lower neighbors tS.mt tS.state tS.startUF).mt.ufs.set
                      cur (some tS.startUF)
                    openedNodes :=
                      (propage lower neighbors
                        tS.mt tS.state tS.startUF).mt.openedNodes.set cur true
                    activeTasks :=
                      (propage lower neighbors tS.mt tS.state tS.startUF).mt.activeTasks - 1 }
                state := (propage lower neighbors tS.mt tS.state tS.startUF).state }
            cur := by
        simp only [processAccept, hb, if_pos rfl]
        simp [hl0]
      exact Or.inr (Or.inl ⟨_, he, rfl, rfl⟩)
  · have hb0 : (propage lower neighbors tS.mt tS.state tS.startUF).becameSaddle = false := by
      simpa using hb
    have he : processAccept sc lower neighbors tS cur d =
        StepOutcome.regular
          { tS with
              mt := setLastVisited
                (if cur ≠ tS.startVert then
                  updateCorrespondingArc
                    { (propage lower neighbors tS.mt tS.state tS.startUF).mt with
                        ufs := (propage lower neighbors tS.mt tS.state tS.startUF).mt.ufs.set
                          cur (some tS.startUF) }
                    cur tS.currentArc
                 else
                  { (propage lower neighbors tS.mt tS.state tS.startUF).mt with
                      ufs := (propage lower neighbors tS.mt tS.state tS.startUF).mt.ufs.set
                        cur (some tS.startUF) })
                tS.currentArc cur
              state := (propage lower neighbors tS.mt tS.state tS.startUF).state }
          cur := by
      simp only [processAccept]
      simp [hb0]
    refine Or.inl ⟨_, he, rfl, rfl, ?_⟩
    · intro hnode
      simp only []
      rw [isCorrespondingNode, getCorresp] at hnode ⊢
      simp only [setLastVisited, modifyArc]
      by_cases hc : cur ≠ tS.startVert
      · rw [if_pos hc]
        simp only [updateCorrespondingArc]
        rw [getD_set_ne _ _ hc, hv2t]
        exact hnode
      · rw [if_neg hc]
        rw [hv2t]
        exact hnode

/-- Skip-outcome inversion for a loop iteration: a skip changes nothing
and happens on the start vertex only if its entry is an arc or the
seen-first flag was already set. -/
theorem processStep_skip_inv (sc : Scalars) (lower : Nat → Nat → Bool)
    (neighbors : Nat → List Nat) (t : TaskState) (d : Nat) (t1 : TaskState) (c : Nat)
    (h : processStep sc lower neighbors t d = StepOutcome.skip t1 c) :
    t1.mt = t.mt ∧ t1.seenFirst = t.seenFirst ∧ t1.startVert = t.startVert ∧
    (isCorrespondingArc t.mt c = true ∨ (c = t.startVert ∧ t.seenFirst = true)) := by
  rw [processStep] at h
  cases hp : getNextMinVertex lower t.state with
  | none =>
    rw [hp] at h
    simp at h
  | some pr =>
    obtain ⟨cur, popped⟩ := pr
    rw [hp] at h
    simp only [] at h
    by_cases harc : (!isCorrespondingNull t.mt cur && !isCorrespondingNode t.mt cur) = true
    · rw [if_pos harc] at h
      injection h with h1 h2
      subst h2
      rw [← h1]
      refine ⟨rfl, rfl, rfl, ?_⟩
      left
      rw [← not_null_not_node_eq_arc]
      exact harc
    · rw [if_neg harc] at h
      by_cases hc : cur = t.startVert
      · rw [if_pos hc] at h
        by_cases hs : t.seenFirst = true
        · rw [hs] at h
          simp only [Bool.not_true, Bool.false_eq_true, if_false] at h
          injection h with h1 h2
          subst h2
          rw [← h1]
          exact ⟨rfl, hs.symm, rfl, Or.inr ⟨hc, hs⟩⟩
        · have hs0 : t.seenFirst = false := by simpa using hs
          rw [hs0] at h
          simp only [Bool.not_false, if_true] at h
          rcases processAccept_shape sc lower neighbors
              { t with state := popped, seenFirst := true } cur d with
            ⟨t2, he, _⟩ | ⟨t2, he, _⟩ | ⟨t2, he, _⟩ | ⟨t2, dn, he, _⟩ <;>
            (rw [he] at h; simp at h)
      · rw [if_neg hc] at h
        rcases processAccept_shape sc lower neighbors { t with state := popped } cur d with
          ⟨t2, he, _⟩ | ⟨t2, he, _⟩ | ⟨t2, he, _⟩ | ⟨t2, dn, he, _⟩ <;>
          (rw [he] at h; simp at h)

/-- Regular-outcome inversion for a loop iteration: the start vertex and
the flag discipline of the seen-first guard, and preservation of the
start vertex's node entry. -/
theorem processStep_regular_inv (sc : Scalars) (lower : Nat → Nat → Bool)
    (neighbors : Nat → List Nat) (t : TaskState) (d : Nat) (t1 : TaskState) (c : Nat)
    (h : processStep sc lower neighbors t d = StepOutcome.regular t1 c) :
    t1.startVert = t.startVert ∧
    t1.seenFirst = (if c = t.startVert then true else t.seenFirst) ∧
    (c = t.startVert → t.seenFirst = false) ∧
    (isCorrespondingNode t.mt t.startVert = true →
      isCorrespondingNode t1.mt t1.startVert = true) := by
  rw [processStep] at h
  cases hp : getNextMinVertex lower t.state with
  | none =>
    rw [hp] at h
    simp at h
  | some pr =>
    obtain ⟨cur, popped⟩ := pr
    rw [hp] at h
    simp only [] at h
    by_cases harc : (!isCorrespondingNull t.mt cur && !isCorrespondingNode t.mt cur) = true
    · rw [if_pos harc] at h
      simp at h
    · rw [if_neg harc] at h
      by_cases hc : cur = t.startVert
      · rw [if_pos hc] at h
        by_cases hs : t.seenFirst = true
        · rw [hs] at h
          simp only [Bool.not_true, Bool.false_eq_true, if_false] at h
          simp at h
        · have hs0 : t.seenFirst = false := by simpa using hs
          rw [hs0] at h
          simp only [Bool.not_false, if_true] at h
          rcases processAccept_shape sc lower neighbors
              { t with state := popped, seenFirst := true } cur d with
            ⟨t2, he, hstv, hsf, hnode⟩ | ⟨t2, he, _⟩ | ⟨t2, he, _⟩ | ⟨t2, dn, he, _⟩
          · rw [he] at h
            injection h with h1 h2
            subst h2
            subst h1
            rw [if_pos hc]
            exact ⟨hstv, hsf, fun _ => hs0, fun hn => by
              rw [hstv]
              exact hnode hn⟩
          all_goals (rw [he] at h; simp at h)
      · rw [if_neg hc] at h
        rcases processAccept_shape sc lower neighbors { t with state := popped } cur d with
          ⟨t2, he, hstv, hsf, hnode⟩ | ⟨t2, he, _⟩ | ⟨t2, he, _⟩ | ⟨t2, dn, he, _⟩
        · rw [he] at h
          injection h with h1 h2
          subst h2
          subst h1
          rw [if_neg hc]
          exact ⟨hstv, hsf, fun hcc => absurd hcc hc, fun hn => by
            rw [hstv]
            exact hnode hn⟩
        all_goals (rw [he] at h; simp at h)

/-- Saddle-outcome inversion: a saddle termination on the start vertex
implies the seen-first flag was still clear (otherwise the pop would have
been skipped). -/
theorem processStep_saddle_inv (sc : Scalars) (lower : Nat → Nat → Bool)
    (neighbors : Nat → List Nat) (t : TaskState) (d : Nat) (o : StepOutcome)
    (h : processStep sc lower neighbors t d = o)
    (hk : o.isSaddle = true) (c : Nat) (hv : o.vertexOf = some c)
    (hc : c = t.startVert) : t.seenFirst = false := by
  by_contra hs
  have hs1 : t.seenFirst = true := by
    cases hsf : t.seenFirst
    · exact absurd hsf hs
    · rfl
  rw [processStep] at h
  cases hp : getNextMinVertex lower t.state with
  | none =>
    rw [hp] at h
    rw [← h] at hk
    simp [StepOutcome.isSaddle] at hk
  | some pr =>
    obtain ⟨cur, popped⟩ := pr
    rw [hp] at h
    simp only [] at h
    by_cases harc : (!isCorrespondingNull t.mt cur && !isCorrespondingNode t.mt cur) = true
    · rw [if_pos harc] at h
      rw [← h] at hk
      simp [StepOutcome.isSaddle] at hk
    · rw [if_neg harc] at h
      by_cases hcc : cur = t.startVert
      · rw [if_pos hcc, hs1] at h
        simp only [Bool.not_true, Bool.false_eq_true, if_false] at h
        rw [← h] at hk
        simp [StepOutcome.isSaddle] at hk
      · rw [if_neg hcc] at h
        rcases processAccept_shape sc lower neighbors { t with state := popped } cur d with
          ⟨t2, he, _⟩ | ⟨t2, he, _⟩ | ⟨t2, he, _⟩ | ⟨t2, dn2, he, _⟩ <;>
          (rw [he] at h
           rw [← h] at hk hv)
        · simp [StepOutcome.isSaddle] at hk
        all_goals
          (simp only [StepOutcome.vertexOf, Option.some.injEq] at hv
           exact hcc (by rw [hv]; exact hc))

/-- Over the whole run of a leaf task's propagation loop, the start
vertex is accepted exactly once if it gets popped at all (and never again
once the seen-first flag is set). -/
theorem runSweep_start_once (sc : Scalars) (lower : Nat → Nat → Bool)
    (neighbors : Nat → List Nat) :
    ∀ (fuel : Nat) (t : TaskState) (d : Nat),
      isCorrespondingNode t.mt t.startVert = true →
      (runSweep sc lower neighbors fuel t d).2.1.count t.startVert =
        (if t.seenFirst = true then 0
         else min ((runSweep sc lower neighbors fuel t d).1.count t.startVert) 1)
  | 0, t, d, hnode => by
    simp [runSweep]
  | fuel + 1, t, d, hnode => by
    rw [runSweep]
    cases hso : processStep sc lower neighbors t d with
    | drained t1 => simp
    | skip t1 c =>
      obtain ⟨hmt, hsf, hstv, hor⟩ := processStep_skip_inv sc lower neighbors t d t1 c hso
      have hnode1 : isCorrespondingNode t1.mt t1.startVert = true := by
        rw [hmt, hstv]
        exact hnode
      have ih := runSweep_start_once sc lower neighbors fuel t1 d hnode1
      rw [hstv, hsf] at ih
      by_cases hc : c = t.startVert
      · have hseen : t.seenFirst = true := by
          rcases hor with harc | ⟨_, hsn⟩
          · have hnn := arc_not_node t.mt c harc
            rw [hc] at hnn
            rw [hnn] at hnode
            exact absurd hnode (by simp)
          · exact hsn
        rw [hseen] at ih
        simp only [if_pos rfl] at ih
        simp [hseen, ih]
      · rw [ih]
        by_cases hseen : t.seenFirst = true
        · simp [hseen]
        · simp [hseen, List.count_cons, hc]
    | regular t1 c =>
      obtain ⟨hstv, hsf, himp, hpres⟩ :=
        processStep_regular_inv sc lower neighbors t d t1 c hso
      have hnode1 : isCorrespondingNode t1.mt t1.startVert = true := hpres hnode
      have ih := runSweep_start_once sc lower neighbors fuel t1 d hnode1
      rw [hstv] at ih
      by_cases hc : c = t.startVert
      · have hs0 : t.seenFirst = false := himp hc
        rw [if_pos hc] at hsf
        rw [hsf] at ih
        simp only [if_pos rfl] at ih
        simp [List.count_cons, ih, hs0, hc]
      · rw [if_neg hc] at hsf
        rw [hsf] at ih
        rw [List.count_cons, List.count_cons, ih]
        by_cases hseen : t.seenFirst = true
        · simp [hseen, hc]
        · simp [hseen, hc]
    | saddleNotLast t1 c =>
      have hsd := processStep_saddle_inv sc lower neighbors t d _ hso rfl c rfl
      by_cases hc : c = t.startVert
      · have hs0 : t.seenFirst = false := hsd hc
        simp [hs0, hc, List.count_cons]
      · by_cases hseen : t.seenFirst = true
        · simp [hseen, List.count_cons, hc]
        · simp [hseen, List.count_cons, hc]
    | saddleLastAlone t1 c =>
      have hsd := processStep_saddle_inv sc lower neighbors t d _ hso rfl c rfl
      by_cases hc : c = t.startVert
      · have hs0 : t.seenFirst = false := hsd hc
        simp [hs0, hc, List.count_cons]
      · by_cases hseen : t.seenFirst = true
        · simp [hseen, List.count_cons, hc]
        · simp [hseen, List.count_cons, hc]
    | saddleMerge t1 c dn =>
      have hsd := processStep_saddle_inv sc lower neighbors t d _ hso rfl c rfl
      by_cases hc : c = t.startVert
      · have hs0 : t.seenFirst = false := hsd hc
        simp [hs0, hc, List.count_cons]
      · by_cases hseen : t.seenFirst = true
        · simp [hseen, List.count_cons, hc]
        · simp [hseen, List.count_cons, hc]

/-- C4: in the sweep loop of a leaf task, a popped vertex is skipped
exactly when `vert2tree` already records an arc on it — with the one
extra skip of a re-popped start vertex, whose entry is a node: the start
vertex is accepted exactly once among all its pops, the seen-first flag
blocking every later one. -/
theorem sweep_skip_spec (sc : Scalars) (lower : Nat → Nat → Bool)
    (neighbors : Nat → List Nat) (t : TaskState) (d fuel : Nat)
    (hnode : isCorrespondingNode t.mt t.startVert = true) :
    (∀ cur popped, getNextMinVertex lower t.state = some (cur, popped) →
      ((∃ t2, processStep sc lower neighbors t d = StepOutcome.skip t2 cur) ↔
        (isCorrespondingArc t.mt cur = true ∨ (cur = t.startVert ∧ t.seenFirst = true)))) ∧
    ((runSweep sc lower neighbors fuel t d).2.1.count t.startVert =
      (if t.seenFirst = true then 0
       else min ((runSweep sc lower neighbors fuel t d).1.count t.startVert) 1)) := by
  refine ⟨?_, runSweep_start_once sc lower neighbors fuel t d hnode⟩
  intro cur popped hpop
  constructor
  · rintro ⟨t2, hsk⟩
    exact (processStep_skip_inv sc lower neighbors t d t2 cur hsk).2.2.2
  · intro hor
    by_cases hC : (!isCorrespondingNull t.mt cur && !isCorrespondingNode t.mt cur) = true
    · refine ⟨{ t with state := popped }, ?_⟩
      simp only [processStep, hpop]
      rw [if_pos hC]
    · have hC0 : (!isCorrespondingNull t.mt cur && !isCorrespondingNode t.mt cur) = false := by
        simpa using hC
      rcases hor with harc | ⟨hc, hs⟩
      · rw [not_null_not_node_eq_arc] at hC0
        rw [harc] at hC0
        exact absurd hC0 (by simp)
      · refine ⟨{ t with state := popped }, ?_⟩
        simp only [processStep, hpop]
        rw [if_neg (by simp [hC0]), if_pos hc, hs]
        simp

/-- C4 witness: on the saddle fixture the popped vertex 2 has a nil
entry, so it is not skipped; and over a full run the start vertex 0
(already seen) is never accepted again. -/
theorem sweep_skip_spec_witness :
    ((∃ t2, processStep sc3 natLower chainNeighbors fixTask 0 = StepOutcome.skip t2 2) ↔
      (isCorrespondingArc fixTask.mt 2 = true ∨
        (2 = fixTask.startVert ∧ fixTask.seenFirst = true))) ∧
    ((runSweep sc3 natLower chainNeighbors 5 fixTask 0).2.1.count fixTask.startVert =
      (if fixTask.seenFirst = true then 0
       else min ((runSweep sc3 natLower chainNeighbors 5 fixTask 0).1.count
         fixTask.startVert) 1)) := by
  have h := sweep_skip_spec sc3 natLower chainNeighbors fixTask 0 5 (by decide)
  exact ⟨h.1 2 { vertex := 2, queue := [] } (by decide), h.2⟩

/-! ### C10: empty input -/

/-- C10: on a mesh with no vertices the pipeline produces the empty
tree: `precompute` creates no node, the leaf phase launches no task, and
`trunk` returns before creating any super-arc, leaving zero nodes and
zero super-arcs. -/
theorem empty_input_spec (sc : Scalars) (lower : Nat → Nat → Bool)
    (neighbors : Nat → List Nat) (isJT : Bool) (hsz : sc.size = 0) :
    (precompute sc lower neighbors (initialState sc.size)).nodes.length = 0 ∧
    (leavesPhase lower (precompute sc lower neighbors (initialState sc.size))).2 = [] ∧
    (trunk sc lower neighbors isJT
      (leavesPhase lower
        (precompute sc lower neighbors (initialState sc.size))).1).1.nodes.length = 0 ∧
    (trunk sc lower neighbors isJT
      (leavesPhase lower
        (precompute sc lower neighbors (initialState sc.size))).1).1.superArcs.length = 0 := by
  obtain ⟨sz, sv, mv⟩ := sc
  have hsz2 : sz = 0 := hsz
  subst hsz2
  have hs1 : precompute { size := 0, sortedVertices := sv, mirrorVertices := mv } lower
      neighbors (initialState
        ({ size := 0, sortedVertices := sv, mirrorVertices := mv } : Scalars).size) =
      initialState 0 := rfl
  rw [hs1]
  have hlp : leavesPhase lower (initialState 0) = (initialState 0, []) := by
    rw [leavesPhase]
    simp [stdSort, initialState]
  rw [hlp]
  have htr : trunk { size := 0, sortedVertices := sv, mirrorVertices := mv } lower neighbors
      isJT (initialState 0) = (initialState 0, 0) := by
    rw [trunk]
    simp [trunkPending, stdSort, trunkChainAux, initialState]
  rw [htr]
  exact ⟨rfl, rfl, rfl, rfl⟩

/-- C10 witness: the concrete empty mesh. -/
theorem empty_input_spec_witness :
    (precompute { size := 0, sortedVertices := [], mirrorVertices := [] } natLower
      chainNeighbors (initialState 0)).nodes.length = 0 ∧
    (leavesPhase natLower
      (precompute { size := 0, sortedVertices := [], mirrorVertices := [] } natLower
        chainNeighbors (initialState 0))).2 = [] ∧
    (trunk { size := 0, sortedVertices := [], mirrorVertices := [] } natLower chainNeighbors
      true
      (leavesPhase natLower
        (precompute { size := 0, sortedVertices := [], mirrorVertices := [] } natLower
          chainNeighbors (initialState 0))).1).1.nodes.length = 0 ∧
    (trunk { size := 0, sortedVertices := [], mirrorVertices := [] } natLower chainNeighbors
      true
      (leavesPhase natLower
        (precompute { size := 0, sortedVertices := [], mirrorVertices := [] } natLower
          chainNeighbors (initialState 0))).1).1.superArcs.length = 0 :=
  empty_input_spec { size := 0, sortedVertices := [], mirrorVertices := [] } natLower
    chainNeighbors true (by decide)

/-! ### Sorting helpers (model of std sort with a strict comparator) -/

/-- The weak order `no later element strictly below an earlier one` is
transitive when the strict comparator is a strict total order. -/
theorem stdSort_le_trans (lower : Nat → Nat → Bool)
    (hirr : ∀ a, lower a a = false)
    (htr : ∀ a b c, lower a b = true → lower b c = true → lower a c = true)
    (htot : ∀ a b, a ≠ b → lower a b = true ∨ lower b a = true) :
    ∀ a b c : Nat, (!lower b a) = true → (!lower c b) = true → (!lower c a) = true := by
  intro a b c hab hbc
  simp only [Bool.not_eq_true'] at hab hbc ⊢
  by_contra hca
  have hca2 : lower c a = true := by
    cases h : lower c a
    · exact absurd h hca
    · rfl
  by_cases hbceq : b = c
  · rw [hbceq] at hab
    rw [hab] at hca2
    exact absurd hca2 (by simp)
  · rcases htot b c hbceq with h1 | h1
    · have := htr b c a h1 hca2
      rw [hab] at this
      exact absurd this (by simp)
    · rw [hbc] at h1
      exact absurd h1 (by simp)

/-- The weak order is total when the strict comparator is a strict total
order. -/
theorem stdSort_le_total (lower : Nat → Nat → Bool)
    (hirr : ∀ a, lower a a = false)
    (htr : ∀ a b c, lower a b = true → lower b c = true → lower a c = true) :
    ∀ a b : Nat, ((!lower b a) || (!lower a b)) = true := by
  intro a b
  by_cases h : lower b a = true
  · have h2 : lower a b = false := by
      cases hx : lower a b
      · rfl
      · have := htr b a b h hx
        rw [hirr b] at this
        exact absurd this (by simp)
    simp [h2]
  · have h0 : lower b a = false := by
      cases hx : lower b a
      · rfl
      · exact absurd hx h
    simp [h0]

/-- `stdSort` permutes its input. -/
theorem stdSort_perm (cmp : Nat → Nat → Bool) (l : List Nat) :
    List.Perm (stdSort cmp l) l :=
  List.mergeSort_perm l _

/-- `stdSort` output is weakly sorted: no later element is strictly below
an earlier one. -/
theorem stdSort_pairwise (lower : Nat → Nat → Bool)
    (hirr : ∀ a, lower a a = false)
    (htr : ∀ a b c, lower a b = true → lower b c = true → lower a c = true)
    (htot : ∀ a b, a ≠ b → lower a b = true ∨ lower b a = true)
    (l : List Nat) :
    (stdSort lower l).Pairwise (fun x y => lower y x = false) := by
  have h := @List.sorted_mergeSort Nat (fun a b => !lower b a)
    (stdSort_le_trans lower hirr htr htot) (stdSort_le_total lower hirr htr) l
  refine h.imp ?_
  intro a b hab
  simpa using hab

/-- Strict sortedness of `stdSort` on a duplicate-free input. -/
theorem stdSort_pairwise_strict (lower : Nat → Nat → Bool)
    (hirr : ∀ a, lower a a = false)
    (htr : ∀ a b c, lower a b = true → lower b c = true → lower a c = true)
    (htot : ∀ a b, a ≠ b → lower a b = true ∨ lower b a = true)
    (l : List Nat) (hnd : l.Nodup) :
    (stdSort lower l).Pairwise (fun x y => lower x y = true) := by
  have hw := stdSort_pairwise lower hirr htr htot l
  have hnd2 : (stdSort lower l).Nodup := (stdSort_perm lower l).nodup_iff.mpr hnd
  have hcomb := List.Pairwise.and hw hnd2
  refine hcomb.imp ?_
  intro a b hab
  obtain ⟨hba, hne⟩ := hab
  rcases htot a b hne with h | h
  · exact h
  · rw [hba] at h
    exact absurd h (by simp)

/-! ### C6: buildSegmentation -/

theorem getD_map_of_lt {α β : Type} (f : α → β) (l : List α) (i : Nat) (d : α) (db : β)
    (h : i < l.length) :
    (l.map f).getD i db = f (l.getD i d) := by
  rw [List.getD_eq_getElem?_getD, List.getD_eq_getElem?_getD, List.getElem?_map]
  rw [List.getElem?_eq_getElem h]
  rfl

/-- The allocation of a segment buffer: `fillSeq alloc l` always has
exactly the allocated length. -/
theorem fillSeq_length (alloc : Nat) (l : List Nat) : (fillSeq alloc l).length = alloc := by
  rw [fillSeq]
  simp only [List.length_append, List.length_take, List.length_replicate]
  omega

/-- Writing the next element at the reserved index extends the filled
prefix (and is dropped once the allocation is exhausted). -/
theorem fillSeq_snoc (alloc : Nat) (l : List Nat) (x : Nat) :
    (fillSeq alloc l).set l.length x = fillSeq alloc (l ++ [x]) := by
  by_cases h : l.length < alloc
  · have htake : l.take alloc = l := List.take_of_length_le (by omega)
    have htake2 : (l ++ [x]).take alloc = l ++ [x] := by
      refine List.take_of_length_le ?_
      simp
      omega
    obtain ⟨m, hm⟩ : ∃ m, alloc - l.length = m + 1 := ⟨alloc - l.length - 1, by omega⟩
    rw [fillSeq, fillSeq, htake, htake2, hm]
    have hm2 : alloc - (l ++ [x]).length = m := by
      simp
      omega
    rw [hm2, List.replicate_succ]
    rw [List.set_append_right _ _ (Nat.le_refl _)]
    simp
  · have hge : alloc ≤ l.length := by omega
    have hset : (fillSeq alloc l).set l.length x = fillSeq alloc l := by
      refine set_oob _ ?_
      rw [fillSeq_length]
      omega
    rw [hset, fillSeq, fillSeq]
    have h1 : alloc - l.length = 0 := by omega
    have h2 : alloc - (l ++ [x]).length = 0 := by
      simp
      omega
    rw [h1, h2]
    rw [List.take_append_eq_append_take]
    have h3 : alloc - l.length = 0 := by omega
    rw [h3]
    simp

/-- Invariant of the segment-filling pass: after scanning the first `k`
sorted vertices, each arc's reserved counter equals the number of its
owned vertices seen so far, and its buffer is the fill of that owned
prefix. -/
theorem segFill_fold_inv (sc : Scalars) (s : MTState) (nbArcs : Nat) (sizes : List Nat)
    (hsl : sizes.length = nbArcs) :
    ∀ k,
      ((List.range k).foldl (segFillStep sc s)
        (sizes.map (fun n => List.replicate n 0), List.replicate nbArcs 0)).1.length
        = nbArcs ∧
      ((List.range k).foldl (segFillStep sc s)
        (sizes.map (fun n => List.replicate n 0), List.replicate nbArcs 0)).2.length
        = nbArcs ∧
      (∀ a, a < nbArcs →
        ((List.range k).foldl (segFillStep sc s)
          (sizes.map (fun n => List.replicate n 0), List.replicate nbArcs 0)).2.getD a 0 =
          (((List.range k).map (fun i => sc.sortedVertices.getD i 0)).filter
            (fun v => decide (getCorresp s v = Corresp.arc a))).length ∧
        ((List.range k).foldl (segFillStep sc s)
          (sizes.map (fun n => List.replicate n 0), List.replicate nbArcs 0)).1.getD a [] =
          fillSeq (sizes.getD a 0)
            (((List.range k).map (fun i => sc.sortedVertices.getD i 0)).filter
              (fun v => decide (getCorresp s v = Corresp.arc a)))) := by
  intro k
  induction k with
  | zero =>
    refine ⟨by simp [hsl], by simp, ?_⟩
    intro a ha
    constructor
    · simp only [List.range_zero, List.foldl_nil, List.map_nil, List.filter_nil,
        List.length_nil]
      rw [List.getD_eq_getElem?_getD]
      simp [List.getElem?_replicate, ha]
    · simp only [List.range_zero, List.foldl_nil, List.map_nil, List.filter_nil]
      have ha2 : a < sizes.length := by omega
      rw [getD_map_of_lt (fun n => List.replicate n 0) sizes a 0 [] ha2]
      rw [fillSeq]
      simp
  | succ k ih =>
    obtain ⟨iL1, iL2, iF⟩ := ih
    have hstep : (List.range (k + 1)).foldl (segFillStep sc s)
        (sizes.map (fun n => List.replicate n 0), List.replicate nbArcs 0) =
        segFillStep sc s
          ((List.range k).foldl (segFillStep sc s)
            (sizes.map (fun n => List.replicate n 0), List.replicate nbArcs 0)) k := by
      rw [List.range_succ, List.foldl_append, List.foldl_cons, List.foldl_nil]
    set acc := (List.range k).foldl (segFillStep sc s)
      (sizes.map (fun n => List.replicate n 0), List.replicate nbArcs 0) with hacc
    rw [hstep]
    have hpref : ∀ a, ((List.range (k + 1)).map (fun i => sc.sortedVertices.getD i 0)).filter
        (fun v => decide (getCorresp s v = Corresp.arc a)) =
        (((List.range k).map (fun i => sc.sortedVertices.getD i 0)).filter
          (fun v => decide (getCorresp s v = Corresp.arc a))) ++
        ([sc.sortedVertices.getD k 0].filter
          (fun v => decide (getCorresp s v = Corresp.arc a))) := by
      intro a
      rw [List.range_succ, List.map_append, List.filter_append]
      rfl
    cases hco : getCorresp s (sc.sortedVertices.getD k 0) with
    | arc sa =>
      have hicA : isCorrespondingArc s (sc.sortedVertices.getD k 0) = true := by
        rw [isCorrespondingArc, hco]
      have hsaid : getCorrespondingSuperArcId s (sc.sortedVertices.getD k 0) = sa := by
        rw [getCorrespondingSuperArcId, hco]
      have hdef : segFillStep sc s acc k =
          (acc.1.set sa ((acc.1.getD sa []).set (acc.2.getD sa 0)
            (sc.sortedVertices.getD k 0)), acc.2.set sa ((acc.2.getD sa 0) + 1)) := by
        rw [segFillStep]
        simp only [hicA, hsaid]
        simp
      rw [hdef]
      refine ⟨by simp [iL1], by simp [iL2], ?_⟩
      intro a ha
      obtain ⟨iC, iS⟩ := iF a ha
      by_cases hasa : a = sa
      · subst hasa
        have hlt1 : a < acc.1.length := by omega
        have hlt2 : a < acc.2.length := by omega
        have hd : (decide (getCorresp s (sc.sortedVertices.getD k 0) = Corresp.arc a))
            = true := by
          rw [hco]
          simp
        have hfa : [sc.sortedVertices.getD k 0].filter
            (fun v => decide (getCorresp s v = Corresp.arc a)) =
            [sc.sortedVertices.getD k 0] := by
          rw [@List.filter_cons_of_pos Nat (fun v => decide (getCorresp s v = Corresp.arc a))
            (sc.sortedVertices.getD k 0) [] hd, List.filter_nil]
        constructor
        · rw [getD_set_self hlt2, iC, hpref a, hfa]
          simp
        · rw [getD_set_self hlt1, iS, iC, hpref a, hfa]
          exact fillSeq_snoc _ _ _
      · have hd : (decide (getCorresp s (sc.sortedVertices.getD k 0) = Corresp.arc a))
            = false := by
          rw [hco]
          simp
          exact fun hcon => hasa hcon.symm
        have hfa : [sc.sortedVertices.getD k 0].filter
            (fun v => decide (getCorresp s v = Corresp.arc a)) = [] := by
          rw [@List.filter_cons_of_neg Nat (fun v => decide (getCorresp s v = Corresp.arc a))
            (sc.sortedVertices.getD k 0) [] ?_, List.filter_nil]
          intro hcon
          have hcon2 : decide (getCorresp s (sc.sortedVertices.getD k 0) = Corresp.arc a)
              = true := hcon
          rw [hd] at hcon2
          exact absurd hcon2 (by simp)
        constructor
        · rw [getD_set_ne _ _ (fun hh => hasa hh.symm), iC, hpref a, hfa]
          simp
        · rw [getD_set_ne _ _ (fun hh => hasa hh.symm), iS, hpref a, hfa]
          simp
    | nil =>
      have hicA : isCorrespondingArc s (sc.sortedVertices.getD k 0) = false := by
        rw [isCorrespondingArc, hco]
      have hdef : segFillStep sc s acc k = acc := by
        simp only [segFillStep]
        rw [hicA]
        simp
      rw [hdef]
      refine ⟨iL1, iL2, ?_⟩
      intro a ha
      obtain ⟨iC, iS⟩ := iF a ha
      have hd : (decide (getCorresp s (sc.sortedVertices.getD k 0) = Corresp.arc a))
          = false := by
        rw [hco]
        simp
      have hfa : [sc.sortedVertices.getD k 0].filter
          (fun v => decide (getCorresp s v = Corresp.arc a)) = [] := by
        rw [@List.filter_cons_of_neg Nat (fun v => decide (getCorresp s v = Corresp.arc a))
          (sc.sortedVertices.getD k 0) [] ?_, List.filter_nil]
        intro hcon
        have hcon2 : decide (getCorresp s (sc.sortedVertices.getD k 0) = Corresp.arc a)
            = true := hcon
        rw [hd] at hcon2
        exact absurd hcon2 (by simp)
      rw [hpref a, hfa]
      exact ⟨by rw [iC]; simp, by rw [iS]; simp⟩
    | node n =>
      have hicA : isCorrespondingArc s (sc.sortedVertices.getD k 0) = false := by
        rw [isCorrespondingArc, hco]
      have hdef : segFillStep sc s acc k = acc := by
        simp only [segFillStep]
        rw [hicA]
        simp
      rw [hdef]
      refine ⟨iL1, iL2, ?_⟩
      intro a ha
      obtain ⟨iC, iS⟩ := iF a ha
      have hd : (decide (getCorresp s (sc.sortedVertices.getD k 0) = Corresp.arc a))
          = false := by
        rw [hco]
        simp
      have hfa : [sc.sortedVertices.getD k 0].filter
          (fun v => decide (getCorresp s v = Corresp.arc a)) = [] := by
        rw [@List.filter_cons_of_neg Nat (fun v => decide (getCorresp s v = Corresp.arc a))
          (sc.sortedVertices.getD k 0) [] ?_, List.filter_nil]
        intro hcon
        have hcon2 : decide (getCorresp s (sc.sortedVertices.getD k 0) = Corresp.arc a)
            = true := hcon
        rw [hd] at hcon2
        exact absurd hcon2 (by simp)
      rw [hpref a, hfa]
      exact ⟨by rw [iC]; simp, by rw [iS]; simp⟩

/-- Invariant of the final region-concatenation pass of
`buildSegmentation`: arcs already scanned carry their old region extended
by their sorted segment, later arcs are untouched, and the segments
themselves never change. -/
theorem regionFold_inv (sSeg : MTState) :
    ∀ k, k ≤ sSeg.superArcs.length →
      ((List.range k).foldl
        (fun t a =>
          if (t.segments.getD a []).length ≠ 0 then
            modifyArc t a (fun x => { x with region := x.region ++ t.segments.getD a [] })
          else t) sSeg).segments = sSeg.segments ∧
      ((List.range k).foldl
        (fun t a =>
          if (t.segments.getD a []).length ≠ 0 then
            modifyArc t a (fun x => { x with region := x.region ++ t.segments.getD a [] })
          else t) sSeg).superArcs.length = sSeg.superArcs.length ∧
      (∀ b, b < k →
        (((List.range k).foldl
          (fun t a =>
            if (t.segments.getD a []).length ≠ 0 then
              modifyArc t a (fun x => { x with region := x.region ++ t.segments.getD a [] })
            else t) sSeg).superArcs.getD b default).region =
          (sSeg.superArcs.getD b default).region ++ sSeg.segments.getD b []) ∧
      (∀ b, k ≤ b →
        ((List.range k).foldl
          (fun t a =>
            if (t.segments.getD a []).length ≠ 0 then
              modifyArc t a (fun x => { x with region := x.region ++ t.segments.getD a [] })
            else t) sSeg).superArcs.getD b default = sSeg.superArcs.getD b default) := by
  intro k
  induction k with
  | zero =>
    intro _
    exact ⟨rfl, rfl, by omega, fun b _ => rfl⟩
  | succ k ih =>
    intro hk1
    obtain ⟨iSeg, iLen, iDone, iTodo⟩ := ih (by omega)
    have hstep : (List.range (k + 1)).foldl
        (fun t a =>
          if (t.segments.getD a []).length ≠ 0 then
            modifyArc t a (fun x => { x with region := x.region ++ t.segments.getD a [] })
          else t) sSeg =
        (fun t a =>
          if (t.segments.getD a []).length ≠ 0 then
            modifyArc t a (fun x => { x with region := x.region ++ t.segments.getD a [] })
          else t)
          ((List.range k).foldl
            (fun t a =>
              if (t.segments.getD a []).length ≠ 0 then
                modifyArc t a
                  (fun x => { x with region := x.region ++ t.segments.getD a [] })
              else t) sSeg) k := by
      rw [List.range_succ, List.foldl_append, List.foldl_cons, List.foldl_nil]
    set F := (List.range k).foldl
      (fun t a =>
        if (t.segments.getD a []).length ≠ 0 then
          modifyArc t a (fun x => { x with region := x.region ++ t.segments.getD a [] })
        else t) sSeg with hF
    rw [hstep]
    simp only []
    have hklen : k < F.superArcs.length := by omega
    by_cases hz : (F.segments.getD k []).length ≠ 0
    · rw [if_pos hz]
      refine ⟨iSeg, by simp [modifyArc, iLen], ?_, ?_⟩
      · intro b hb
        rcases Nat.lt_or_ge b k with hbk | hbk
        · show ((F.superArcs.set k _).getD b default).region = _
          rw [getD_set_ne _ _ (by omega : k ≠ b)]
          exact iDone b hbk
        · have hbek : b = k := by omega
          subst hbek
          show ((F.superArcs.set b _).getD b default).region = _
          rw [getD_set_self (by omega : b < F.superArcs.length)]
          simp only []
          rw [iTodo b (Nat.le_refl _), iSeg]
      · intro b hb
        show (F.superArcs.set k _).getD b default = _
        rw [getD_set_ne _ _ (by omega : k ≠ b)]
        exact iTodo b (by omega)
    · rw [if_neg hz]
      have hz0 : F.segments.getD k [] = [] := by
        have : (F.segments.getD k []).length = 0 := by omega
        exact List.length_eq_zero.mp this
      refine ⟨iSeg, iLen, ?_, fun b hb => iTodo b (by omega)⟩
      intro b hb
      rcases Nat.lt_or_ge b k with hbk | hbk
      · exact iDone b hbk
      · have hbek : b = k := by omega
        subst hbek
        rw [iTodo b (Nat.le_refl _)]
        rw [iSeg] at hz0
        rw [hz0]
        simp

/-- C6: `buildSegmentation` allocates every arc's segment to
`max(0, visitCount − 1)` entries, fills it with the arc-owned vertices of
the sweep-sorted scan at atomically reserved indices, sorts every segment
in sweep order, and concatenates it onto the arc's region. -/
theorem buildSegmentation_spec (sc : Scalars) (lower : Nat → Nat → Bool) (s : MTState)
    (hirr : ∀ a, lower a a = false)
    (htr : ∀ a b c, lower a b = true → lower b c = true → lower a c = true)
    (htot : ∀ a b, a ≠ b → lower a b = true ∨ lower b a = true) :
    (∀ a, a < s.superArcs.length →
      ((buildSegmentation sc lower s).segments.getD a []).length =
        (max 0 ((s.superArcs.getD a default).nbSeen - 1)).toNat) ∧
    (∀ a, a < s.superArcs.length →
      (buildSegmentation sc lower s).segments.getD a [] =
        stdSort lower (fillSeq ((max 0 ((s.superArcs.getD a default).nbSeen - 1)).toNat)
          (arcOwnedSeq sc s a))) ∧
    (∀ a, a < s.superArcs.length →
      ((buildSegmentation sc lower s).segments.getD a []).Pairwise
        (fun x y => lower y x = false)) ∧
    (∀ a, a < s.superArcs.length →
      ((buildSegmentation sc lower s).superArcs.getD a default).region =
        (s.superArcs.getD a default).region ++
          (buildSegmentation sc lower s).segments.getD a []) := by
  obtain ⟨fL1, fL2, fF⟩ := segFill_fold_inv sc s s.superArcs.length
    (s.superArcs.map (fun x => (max 0 (x.nbSeen - 1)).toNat)) (by simp) sc.size
  have hbs : buildSegmentation sc lower s =
      (List.range s.superArcs.length).foldl
        (fun t a =>
          if (t.segments.getD a []).length ≠ 0 then
            modifyArc t a (fun x => { x with region := x.region ++ t.segments.getD a [] })
          else t)
        { s with segments :=
            ((List.range sc.size).foldl (segFillStep sc s)
              ((s.superArcs.map (fun x => (max 0 (x.nbSeen - 1)).toNat)).map
                (fun n => List.replicate n 0),
               List.replicate s.superArcs.length 0)).1.map (stdSort lower) } := rfl
  obtain ⟨rSeg, rLen, rDone, rTodo⟩ := regionFold_inv
    { s with segments :=
        ((List.range sc.size).foldl (segFillStep sc s)
          ((s.superArcs.map (fun x => (max 0 (x.nbSeen - 1)).toNat)).map
            (fun n => List.replicate n 0),
           List.replicate s.superArcs.length 0)).1.map (stdSort lower) }
    s.superArcs.length (Nat.le_refl _)
  have hsegEq : ∀ a, a < s.superArcs.length →
      (buildSegmentation sc lower s).segments.getD a [] =
        stdSort lower (fillSeq ((max 0 ((s.superArcs.getD a default).nbSeen - 1)).toNat)
          (arcOwnedSeq sc s a)) := by
    intro a ha
    rw [hbs, rSeg]
    simp only []
    have ha1 : a < ((List.range sc.size).foldl (segFillStep sc s)
        ((s.superArcs.map (fun x => (max 0 (x.nbSeen - 1)).toNat)).map
          (fun n => List.replicate n 0),
         List.replicate s.superArcs.length 0)).1.length := by omega
    rw [getD_map_of_lt (stdSort lower) _ a [] [] ha1]
    obtain ⟨_, hS⟩ := fF a ha
    rw [hS]
    have hsz : (s.superArcs.map (fun x => (max 0 (x.nbSeen - 1)).toNat)).getD a 0 =
        (max 0 ((s.superArcs.getD a default).nbSeen - 1)).toNat :=
      getD_map_of_lt _ _ a default 0 ha
    rw [hsz]
    rfl
  refine ⟨?_, hsegEq, ?_, ?_⟩
  · intro a ha
    rw [hsegEq a ha, stdSort, List.length_mergeSort, fillSeq_length]
  · intro a ha
    rw [hsegEq a ha]
    exact stdSort_pairwise lower hirr htr htot _
  · intro a ha
    have h1 := rDone a ha
    rw [hbs]
    rw [h1]
    simp only []
    congr 1
    rw [← hbs, hsegEq a ha]
    have ha1 : a < ((List.range sc.size).foldl (segFillStep sc s)
        ((s.superArcs.map (fun x => (max 0 (x.nbSeen - 1)).toNat)).map
          (fun n => List.replicate n 0),
         List.replicate s.superArcs.length 0)).1.length := by omega
    rw [getD_map_of_lt (stdSort lower) _ a [] [] ha1]
    obtain ⟨_, hS⟩ := fF a ha
    rw [hS]
    have hsz : (s.superArcs.map (fun x => (max 0 (x.nbSeen - 1)).toNat)).getD a 0 =
        (max 0 ((s.superArcs.getD a default).nbSeen - 1)).toNat :=
      getD_map_of_lt _ _ a default 0 ha
    rw [hsz]
    rfl

/-- Witness for C6 on the three-vertex fixture: its single arc was seen
three times, so two segment slots are allocated, and the region grows by
the sorted segment. -/
theorem buildSegmentation_spec_witness :
    ((buildSegmentation sc3 natLower fixSeg).segments.getD 0 []).length =
      (max 0 ((fixSeg.superArcs.getD 0 default).nbSeen - 1)).toNat ∧
    (buildSegmentation sc3 natLower fixSeg).segments.getD 0 [] =
      stdSort natLower
        (fillSeq ((max 0 ((fixSeg.superArcs.getD 0 default).nbSeen - 1)).toNat)
          (arcOwnedSeq sc3 fixSeg 0)) ∧
    ((buildSegmentation sc3 natLower fixSeg).superArcs.getD 0 default).region =
      (fixSeg.superArcs.getD 0 default).region ++
        (buildSegmentation sc3 natLower fixSeg).segments.getD 0 [] := by
  have h := buildSegmentation_spec sc3 natLower fixSeg
    (fun a => by simp [natLower])
    (fun a b c h1 h2 => by simp only [natLower, decide_eq_true_eq] at *; omega)
    (fun a b hne => by simp only [natLower, decide_eq_true_eq]; omega)
  exact ⟨h.1 0 (by decide), h.2.1 0 (by decide), h.2.2.2 0 (by decide)⟩

/-! ### C5: the trunk backbone -/

theorem modifyNode_superArcs (s : MTState) (m : Nat) (f : Node → Node) :
    (modifyNode s m f).superArcs = s.superArcs := rfl

theorem modifyNode_vert2tree (s : MTState) (m : Nat) (f : Node → Node) :
    (modifyNode s m f).vert2tree = s.vert2tree := rfl

theorem modifyNode_nodes_length (s : MTState) (m : Nat) (f : Node → Node) :
    (modifyNode s m f).nodes.length = s.nodes.length := by
  simp [modifyNode]

theorem modifyArc_nodes (s : MTState) (a : Nat) (f : SuperArc → SuperArc) :
    (modifyArc s a f).nodes = s.nodes := rfl

theorem modifyArc_vert2tree (s : MTState) (a : Nat) (f : SuperArc → SuperArc) :
    (modifyArc s a f).vert2tree = s.vert2tree := rfl

theorem modifyArc_superArcs_length (s : MTState) (a : Nat) (f : SuperArc → SuperArc) :
    (modifyArc s a f).superArcs.length = s.superArcs.length := by
  simp [modifyArc]

/-- A node-slot update that keeps the node's vertex keeps every slot's
vertex. -/
theorem modifyNode_vertexId (s : MTState) (m : Nat) (f : Node → Node)
    (hf : ∀ x, (f x).vertexId = x.vertexId) (n : Nat) :
    ((modifyNode s m f).nodes.getD n default).vertexId =
      (s.nodes.getD n default).vertexId := by
  simp only [modifyNode]
  by_cases h : m = n
  · subst h
    by_cases hl : m < s.nodes.length
    · rw [getD_set_self hl]
      exact hf _
    · rw [set_oob _ (by omega)]
  · rw [getD_set_ne _ _ h]

/-- `vert2tree` lookups only read `vert2tree`. -/
theorem getCorresp_of_v2t {s t : MTState} (h : s.vert2tree = t.vert2tree) (v : Nat) :
    getCorresp s v = getCorresp t v := by
  rw [getCorresp, getCorresp, h]

theorem isCorrespondingNode_of_v2t {s t : MTState} (h : s.vert2tree = t.vert2tree) (v : Nat) :
    isCorrespondingNode s v = isCorrespondingNode t v := by
  rw [isCorrespondingNode, isCorrespondingNode, getCorresp_of_v2t h]

theorem getCorrespondingNodeId_of_v2t {s t : MTState} (h : s.vert2tree = t.vert2tree)
    (v : Nat) : getCorrespondingNodeId s v = getCorrespondingNodeId t v := by
  rw [getCorrespondingNodeId, getCorrespondingNodeId, getCorresp_of_v2t h]

/-- `closeSuperArc` never touches the vertex→tree map. -/
theorem closeSuperArc_vert2tree (s : MTState) (a n : Nat) :
    (closeSuperArc s a n).vert2tree = s.vert2tree := by
  rw [closeSuperArc]
  split_ifs <;> rfl

/-- `makeUnion` only touches the union-find arena. -/
theorem makeUnion_vert2tree (lower : Nat → Nat → Bool) (s : MTState) (a b : Nat) :
    (makeUnion lower s a b).1.vert2tree = s.vert2tree := by
  rw [makeUnion]
  split_ifs <;> rfl

/-- The union step of the saddle-closing loops never touches the
vertex→tree map. -/
theorem saddleUnionStep_vert2tree (lower : Nat → Nat → Bool) (sv : Nat) (t : MTState)
    (n : Nat) : (saddleUnionStep lower sv t n).vert2tree = t.vert2tree := by
  rw [saddleUnionStep]
  split_ifs with h
  · rcases hn : t.ufs.getD n none with _ | un <;> rcases hv : t.ufs.getD sv none with _ | uv
    · rfl
    · rfl
    · rfl
    · simp only []
      split_ifs with h2
      · show (makeUnion lower t uv un).1.vert2tree = t.vert2tree
        exact makeUnion_vert2tree lower t uv un
      · rfl
  · rfl

theorem foldl_saddleUnionStep_vert2tree (lower : Nat → Nat → Bool) (sv : Nat) :
    ∀ (l : List Nat) (t : MTState),
      (l.foldl (saddleUnionStep lower sv) t).vert2tree = t.vert2tree := by
  intro l
  induction l with
  | nil => intro t; rfl
  | cons a l ih =>
    intro t
    rw [List.foldl_cons, ih, saddleUnionStep_vert2tree]

theorem foldl_closeSuperArc_vert2tree (cn : Nat) :
    ∀ (l : List Nat) (t : MTState),
      (l.foldl (fun t sa => closeSuperArc t sa cn) t).vert2tree = t.vert2tree := by
  intro l
  induction l with
  | nil => intro t; rfl
  | cons a l ih =>
    intro t
    rw [List.foldl_cons, ih, closeSuperArc_vert2tree]

/-- `closeArcsUF` never touches the vertex→tree map. -/
theorem closeArcsUF_vert2tree (s : MTState) (cn u : Nat) :
    (closeArcsUF s cn u).vert2tree = s.vert2tree := by
  rw [closeArcsUF]
  exact foldl_closeSuperArc_vert2tree cn _ s

/-- The effect of `makeNode` on the vertex→tree map: the length never
changes, other vertices keep their entry, node entries are stable, and an
in-range vertex becomes a node entry. -/
theorem makeNode_vert2tree_facts (sc : Scalars) (s : MTState) (v : Nat) (term : Option Nat) :
    (makeNode sc s v term).1.vert2tree.length = s.vert2tree.length ∧
    (∀ w, w ≠ v → getCorresp (makeNode sc s v term).1 w = getCorresp s w) ∧
    (∀ w, isCorrespondingNode s w = true →
      isCorrespondingNode (makeNode sc s v term).1 w = true) ∧
    (v < sc.size → v < s.vert2tree.length →
      isCorrespondingNode (makeNode sc s v term).1 v = true) := by
  by_cases h1 : sc.size ≤ v
  · rw [makeNode, if_pos h1]
    exact ⟨rfl, fun w _ => rfl, fun w hw => hw, fun hv _ => absurd hv (by omega)⟩
  · by_cases h2 : isCorrespondingNode s v = true
    · rw [makeNode, if_neg h1, if_pos h2]
      exact ⟨rfl, fun w _ => rfl, fun w hw => hw, fun _ _ => h2⟩
    · have hmk : makeNode sc s v term =
          (updateCorrespondingNode
            { s with nodes := s.nodes ++
                [{ vertexId := v, terminaison := term, upArcs := [], downArcs := [] }] }
            v s.nodes.length, some s.nodes.length) := by
        rw [makeNode, if_neg h1, if_neg h2]
      rw [hmk]
      refine ⟨?_, ?_, ?_, ?_⟩
      · show (updateCorrespondingNode
            { s with nodes := s.nodes ++
                [{ vertexId := v, terminaison := term, upArcs := [], downArcs := [] }] }
            v s.nodes.length).vert2tree.length = s.vert2tree.length
        simp [updateCorrespondingNode]
      · intro w hw
        show getCorresp (updateCorrespondingNode
            { s with nodes := s.nodes ++
                [{ vertexId := v, terminaison := term, upArcs := [], downArcs := [] }] }
            v s.nodes.length) w = getCorresp s w
        rw [getCorresp, getCorresp]
        simp only [updateCorrespondingNode]
        exact getD_set_ne _ _ (fun he => hw he.symm)
      · intro w hw
        show isCorrespondingNode (updateCorrespondingNode
            { s with nodes := s.nodes ++
                [{ vertexId := v, terminaison := term, upArcs := [], downArcs := [] }] }
            v s.nodes.length) w = true
        by_cases hwv : w = v
        · rw [isCorrespondingNode, getCorresp]
          simp only [updateCorrespondingNode]
          by_cases hl : v < s.vert2tree.length
          · rw [hwv, getD_set_self (by simpa using hl)]
          · rw [set_oob _ (by simpa using Nat.le_of_not_lt hl)]
            rw [isCorrespondingNode, getCorresp] at hw
            exact hw
        · rw [isCorrespondingNode, getCorresp]
          simp only [updateCorrespondingNode]
          rw [getD_set_ne _ _ (fun he => hwv he.symm)]
          rw [isCorrespondingNode, getCorresp] at hw
          exact hw
      · intro hv hl
        show isCorrespondingNode (updateCorrespondingNode
            { s with nodes := s.nodes ++
                [{ vertexId := v, terminaison := term, upArcs := [], downArcs := [] }] }
            v s.nodes.length) v = true
        rw [isCorrespondingNode, getCorresp]
        simp only [updateCorrespondingNode]
        rw [getD_set_self (by simpa using hl)]

/-- `closeOnBackBone` changes the vertex→tree map exactly as its
`makeNode` call does. -/
theorem closeOnBackBone_vert2tree (sc : Scalars) (lower : Nat → Nat → Bool)
    (neighbors : Nat → List Nat) (s : MTState) (w : Nat) :
    (closeOnBackBone sc lower neighbors s w).vert2tree =
      (makeNode sc s w none).1.vert2tree := by
  simp only [closeOnBackBone]
  rcases hu : ((neighbors w).foldl (saddleUnionStep lower w) (makeNode sc s w none).1).ufs.getD
      w none with _ | uv
  · exact foldl_saddleUnionStep_vert2tree lower w _ _
  · show (closeArcsUF ((neighbors w).foldl (saddleUnionStep lower w) (makeNode sc s w none).1)
        ((makeNode sc s w none).2.getD (makeNode sc s w none).1.nodes.length) uv).vert2tree = _
    rw [closeArcsUF_vert2tree]
    exact foldl_saddleUnionStep_vert2tree lower w _ _

theorem closeOnBackBone_v2t_len (sc : Scalars) (lower : Nat → Nat → Bool)
    (neighbors : Nat → List Nat) (s : MTState) (w : Nat) :
    (closeOnBackBone sc lower neighbors s w).vert2tree.length = s.vert2tree.length := by
  rw [closeOnBackBone_vert2tree]
  exact (makeNode_vert2tree_facts sc s w none).1

theorem closeOnBackBone_node_stable (sc : Scalars) (lower : Nat → Nat → Bool)
    (neighbors : Nat → List Nat) (s : MTState) (w v : Nat)
    (h : isCorrespondingNode s v = true) :
    isCorrespondingNode (closeOnBackBone sc lower neighbors s w) v = true := by
  rw [isCorrespondingNode_of_v2t (closeOnBackBone_vert2tree sc lower neighbors s w) v]
  exact (makeNode_vert2tree_facts sc s w none).2.2.1 v h

theorem closeOnBackBone_establishes (sc : Scalars) (lower : Nat → Nat → Bool)
    (neighbors : Nat → List Nat) (s : MTState) (w : Nat)
    (hw : w < sc.size) (hl : w < s.vert2tree.length) :
    isCorrespondingNode (closeOnBackBone sc lower neighbors s w) w = true := by
  rw [isCorrespondingNode_of_v2t (closeOnBackBone_vert2tree sc lower neighbors s w) w]
  exact (makeNode_vert2tree_facts sc s w none).2.2.2 hw hl

theorem cobbFold_v2t_len (sc : Scalars) (lower : Nat → Nat → Bool)
    (neighbors : Nat → List Nat) :
    ∀ (P : List Nat) (s : MTState),
      (P.foldl (closeOnBackBone sc lower neighbors) s).vert2tree.length =
        s.vert2tree.length := by
  intro P
  induction P with
  | nil => intro s; rfl
  | cons w P ih =>
    intro s
    rw [List.foldl_cons, ih, closeOnBackBone_v2t_len]

theorem cobbFold_node_stable (sc : Scalars) (lower : Nat → Nat → Bool)
    (neighbors : Nat → List Nat) (v : Nat) :
    ∀ (P : List Nat) (s : MTState), isCorrespondingNode s v = true →
      isCorrespondingNode (P.foldl (closeOnBackBone sc lower neighbors) s) v = true := by
  intro P
  induction P with
  | nil => intro s h; exact h
  | cons w P ih =>
    intro s h
    rw [List.foldl_cons]
    exact ih _ (closeOnBackBone_node_stable sc lower neighbors s w v h)

/-- After the backbone-closing pass every pending vertex is recorded as a
node. -/
theorem cobbFold_nodes (sc : Scalars) (lower : Nat → Nat → Bool)
    (neighbors : Nat → List Nat) :
    ∀ (P : List Nat) (s : MTState), s.vert2tree.length = sc.size →
      (∀ v ∈ P, v < sc.size) →
      ∀ v ∈ P, isCorrespondingNode (P.foldl (closeOnBackBone sc lower neighbors) s) v =
        true := by
  intro P
  induction P with
  | nil => intro s _ _ v hv; exact absurd hv (List.not_mem_nil v)
  | cons w P ih =>
    intro s hlen hmem v hv
    rw [List.foldl_cons]
    rcases List.mem_cons.mp hv with hvw | hvP
    · subst hvw
      have hvs : v < sc.size := hmem v (List.mem_cons_self v P)
      apply cobbFold_node_stable
      exact closeOnBackBone_establishes sc lower neighbors s v hvs (by omega)
    · exact ih (closeOnBackBone sc lower neighbors s w)
        (by rw [closeOnBackBone_v2t_len]; exact hlen)
        (fun u hu => hmem u (List.mem_cons_of_mem w hu)) v hvP

/-- One chain iteration of `trunk` appends the consecutive-pair arc and
stamps its last-visited vertex. -/
theorem chainStep_superArcs (t : MTState) (a b x : Nat) :
    (setLastVisited (makeSuperArc t a b).1 (makeSuperArc t a b).2 x).superArcs =
      (t.superArcs ++
        ([{ downNodeId := a, upNodeId := some b, lastVisited := none, nbSeen := 0,
            region := [] }] : List SuperArc)).set t.superArcs.length
        { downNodeId := a, upNodeId := some b, lastVisited := some x, nbSeen := 0,
          region := [] } := by
  show ((t.superArcs ++
      ([{ downNodeId := a, upNodeId := some b, lastVisited := none, nbSeen := 0,
          region := [] }] : List SuperArc)).set t.superArcs.length
      ((fun y : SuperArc => { y with lastVisited := some x })
        ((t.superArcs ++
          ([{ downNodeId := a, upNodeId := some b, lastVisited := none, nbSeen := 0,
              region := [] }] : List SuperArc)).getD t.superArcs.length default))) =
    (t.superArcs ++
      ([{ downNodeId := a, upNodeId := some b, lastVisited := none, nbSeen := 0,
          region := [] }] : List SuperArc)).set t.superArcs.length
      { downNodeId := a, upNodeId := some b, lastVisited := some x, nbSeen := 0,
        region := [] }
  rw [getD_append_right _ (Nat.le_refl _)]
  simp

theorem chainStep_nodes_length (t : MTState) (a b x : Nat) :
    (setLastVisited (makeSuperArc t a b).1 (makeSuperArc t a b).2 x).nodes.length =
      t.nodes.length := by
  simp only [setLastVisited, makeSuperArc, modifyArc, modifyNode]
  simp

theorem chainStep_vert2tree (t : MTState) (a b x : Nat) :
    (setLastVisited (makeSuperArc t a b).1 (makeSuperArc t a b).2 x).vert2tree =
      t.vert2tree := rfl

theorem modifyNode_vertexId_up (s : MTState) (m k n : Nat) :
    ((modifyNode s m (fun y => { y with upArcs := y.upArcs ++ [k] })).nodes.getD n
        default).vertexId =
      (s.nodes.getD n default).vertexId :=
  modifyNode_vertexId s m (fun y => { y with upArcs := y.upArcs ++ [k] })
    (fun y => rfl) n

theorem modifyNode_vertexId_down (s : MTState) (m k n : Nat) :
    ((modifyNode s m (fun y => { y with downArcs := y.downArcs ++ [k] })).nodes.getD n
        default).vertexId =
      (s.nodes.getD n default).vertexId :=
  modifyNode_vertexId s m (fun y => { y with downArcs := y.downArcs ++ [k] })
    (fun y => rfl) n

theorem chainStep_vertexId (t : MTState) (a b x n : Nat) :
    ((setLastVisited (makeSuperArc t a b).1 (makeSuperArc t a b).2 x).nodes.getD n
        default).vertexId =
      (t.nodes.getD n default).vertexId := by
  show ((modifyNode (modifyNode
      { t with superArcs := t.superArcs ++
          [{ downNodeId := a, upNodeId := some b, lastVisited := none, nbSeen := 0,
             region := [] }] }
      a (fun y => { y with upArcs := y.upArcs ++ [t.superArcs.length] }))
      b (fun y => { y with downArcs := y.downArcs ++ [t.superArcs.length] })).nodes.getD n
        default).vertexId = (t.nodes.getD n default).vertexId
  rw [modifyNode_vertexId_down, modifyNode_vertexId_up]

/-- Invariant of the consecutive-pair arc chain of `trunk`: after `k`
iterations, exactly `k` arcs were appended, the `j`-th of them connecting
the nodes of `pendingVerts[j]` and `pendingVerts[j+1]` with its
last-visited vertex stamped; nodes, their vertices, the vertex→tree map
and the pre-existing arcs are untouched. -/
theorem trunkChainAux_inv (P : List Nat) (sB : MTState) : ∀ k,
    (trunkChainAux P sB k).superArcs.length = sB.superArcs.length + k ∧
    (trunkChainAux P sB k).nodes.length = sB.nodes.length ∧
    (trunkChainAux P sB k).vert2tree = sB.vert2tree ∧
    (∀ n, ((trunkChainAux P sB k).nodes.getD n default).vertexId =
      (sB.nodes.getD n default).vertexId) ∧
    (∀ j, j < k →
      (trunkChainAux P sB k).superArcs.getD (sB.superArcs.length + j) default =
        { downNodeId := getCorrespondingNodeId sB (P.getD j 0),
          upNodeId := some (getCorrespondingNodeId sB (P.getD (j + 1) 0)),
          lastVisited := some (P.getD (j + 1) 0), nbSeen := 0, region := [] }) ∧
    (∀ j, j < sB.superArcs.length →
      (trunkChainAux P sB k).superArcs.getD j default = sB.superArcs.getD j default) := by
  intro k
  induction k with
  | zero =>
    exact ⟨rfl, rfl, rfl, fun n => rfl, fun j hj => absurd hj (by omega), fun j hj => rfl⟩
  | succ k ih =>
    obtain ⟨iLen, iNLen, iV2t, iVid, iChain, iOld⟩ := ih
    have hd : getCorrespondingNodeId (trunkChainAux P sB k) (P.getD k 0) =
        getCorrespondingNodeId sB (P.getD k 0) := getCorrespondingNodeId_of_v2t iV2t _
    have hu : getCorrespondingNodeId (trunkChainAux P sB k) (P.getD (k + 1) 0) =
        getCorrespondingNodeId sB (P.getD (k + 1) 0) := getCorrespondingNodeId_of_v2t iV2t _
    have hstep : trunkChainAux P sB (k + 1) =
        setLastVisited
          (makeSuperArc (trunkChainAux P sB k)
            (getCorrespondingNodeId (trunkChainAux P sB k) (P.getD k 0))
            (getCorrespondingNodeId (trunkChainAux P sB k) (P.getD (k + 1) 0))).1
          (makeSuperArc (trunkChainAux P sB k)
            (getCorrespondingNodeId (trunkChainAux P sB k) (P.getD k 0))
            (getCorrespondingNodeId (trunkChainAux P sB k) (P.getD (k + 1) 0))).2
          (P.getD (k + 1) 0) := by
      rw [trunkChainAux]
    have hsup := chainStep_superArcs (trunkChainAux P sB k)
      (getCorrespondingNodeId (trunkChainAux P sB k) (P.getD k 0))
      (getCorrespondingNodeId (trunkChainAux P sB k) (P.getD (k + 1) 0))
      (P.getD (k + 1) 0)
    refine ⟨?_, ?_, ?_, ?_, ?_, ?_⟩
    · rw [hstep, hsup]
      simp only [List.length_set, List.length_append, List.length_singleton, iLen]
      omega
    · rw [hstep, chainStep_nodes_length]
      exact iNLen
    · rw [hstep, chainStep_vert2tree]
      exact iV2t
    · intro n
      rw [hstep, chainStep_vertexId]
      exact iVid n
    · intro j hj
      rcases Nat.lt_or_ge j k with hjk | hjk
      · rw [hstep, hsup]
        rw [getD_set_ne _ _ (by omega : (trunkChainAux P sB k).superArcs.length ≠
          sB.superArcs.length + j)]
        rw [getD_append_left _ (by omega : sB.superArcs.length + j <
          (trunkChainAux P sB k).superArcs.length)]
        exact iChain j hjk
      · have hjek : j = k := by omega
        subst hjek
        rw [hstep, hsup]
        have hidx : sB.superArcs.length + j = (trunkChainAux P sB j).superArcs.length := by
          omega
        rw [hidx, getD_set_self (by simp)]
        rw [hd, hu]
    · intro j hj
      rw [hstep, hsup]
      rw [getD_set_ne _ _ (by omega : (trunkChainAux P sB k).superArcs.length ≠ j)]
      rw [getD_append_left _ (by omega : j < (trunkChainAux P sB k).superArcs.length)]
      exact iOld j hj

/-- `openSuperArc` on an existing down node: append the open arc and hook
it under its down node. -/
theorem openSuperArc_ok (s : MTState) (d : Nat) (h : d < s.nodes.length) :
    openSuperArc s d =
      (modifyNode
        { s with superArcs := s.superArcs ++
            [{ downNodeId := d, upNodeId := none, lastVisited := none, nbSeen := 0,
               region := [] }] }
        d (fun n => { n with upArcs := n.upArcs ++ [s.superArcs.length] }),
       some s.superArcs.length) := by
  rw [openSuperArc, if_neg (by omega)]

/-- `closeSuperArc` on in-range ids: set the up node and hook the arc
under it. -/
theorem closeSuperArc_ok (s : MTState) (a r : Nat) (ha : a < s.superArcs.length)
    (hr : r < s.nodes.length) :
    closeSuperArc s a r =
      modifyNode (modifyArc s a (fun x => { x with upNodeId := some r })) r
        (fun n => { n with downArcs := n.downArcs ++ [a] }) := by
  rw [closeSuperArc, if_neg (by omega), if_neg (by omega)]

/-- `makeNode` on an in-range vertex with a consistent map always yields
a node sitting on that vertex, never touching the arcs. -/
theorem makeNode_root_ok (sc : Scalars) (s : MTState) (v : Nat) (hv : v < sc.size)
    (hcons : isCorrespondingNode s v = true →
      getCorrespondingNodeId s v < s.nodes.length ∧
      (s.nodes.getD (getCorrespondingNodeId s v) default).vertexId = v) :
    ∃ s3 r, makeNode sc s v none = (s3, some r) ∧ r < s3.nodes.length ∧
      (s3.nodes.getD r default).vertexId = v ∧ s3.superArcs = s.superArcs := by
  by_cases hic : isCorrespondingNode s v = true
  · obtain ⟨h1, h2⟩ := hcons hic
    exact ⟨s, getCorrespondingNodeId s v,
      by rw [makeNode, if_neg (by omega), if_pos hic], h1, h2, rfl⟩
  · refine ⟨updateCorrespondingNode
        { s with nodes := s.nodes ++
            [{ vertexId := v, terminaison := none, upArcs := [], downArcs := [] }] }
        v s.nodes.length, s.nodes.length,
      by rw [makeNode, if_neg (by omega), if_neg hic], ?_, ?_, rfl⟩
    · show s.nodes.length <
        (s.nodes ++
          ([{ vertexId := v, terminaison := none, upArcs := [], downArcs := [] }] :
            List Node)).length
      simp
    · show ((s.nodes ++
          ([{ vertexId := v, terminaison := none, upArcs := [], downArcs := [] }] :
            List Node)).getD s.nodes.length default).vertexId = v
      rw [getD_append_right _ (Nat.le_refl _)]
      simp

/-- C5: the trunk phase collects exactly the vertices whose opened-nodes
bit is set, sorts them in sweep order, closes each on the backbone in
that sequence (leaving every one recorded as a node), then appends one
super-arc per consecutive backbone pair — stamped with the upper vertex —
and a final arc from the last backbone node whose upper end is a node
sitting at the global extremum of the sweep (`sortedVertices[size-1]`
for a join tree, `sortedVertices[0]` for a split tree). -/
theorem trunk_spec (sc : Scalars) (lower : Nat → Nat → Bool) (neighbors : Nat → List Nat)
    (isJT : Bool) (s : MTState)
    (hirr : ∀ a, lower a a = false)
    (htr : ∀ a b c, lower a b = true → lower b c = true → lower a c = true)
    (htot : ∀ a b, a ≠ b → lower a b = true ∨ lower b a = true)
    (hlen : s.vert2tree.length = sc.size)
    (hne : trunkPending lower sc s ≠ [])
    (hlastn : getCorrespondingNodeId (trunkBackboneState sc lower neighbors s)
        ((trunkPending lower sc s).getD ((trunkPending lower sc s).length - 1) 0) <
      (trunkBackboneState sc lower neighbors s).nodes.length)
    (hroot : sc.sortedVertices.getD (if isJT then sc.size - 1 else 0) 0 < sc.size)
    (hrootn : isCorrespondingNode (trunkBackboneState sc lower neighbors s)
          (sc.sortedVertices.getD (if isJT then sc.size - 1 else 0) 0) = true →
        getCorrespondingNodeId (trunkBackboneState sc lower neighbors s)
            (sc.sortedVertices.getD (if isJT then sc.size - 1 else 0) 0) <
          (trunkBackboneState sc lower neighbors s).nodes.length ∧
        ((trunkBackboneState sc lower neighbors s).nodes.getD
            (getCorrespondingNodeId (trunkBackboneState sc lower neighbors s)
              (sc.sortedVertices.getD (if isJT then sc.size - 1 else 0) 0))
            default).vertexId =
          sc.sortedVertices.getD (if isJT then sc.size - 1 else 0) 0) :
    (∀ v, v ∈ trunkPending lower sc s ↔
      v < sc.size ∧ s.openedNodes.getD v false = true) ∧
    (trunkPending lower sc s).Pairwise (fun a b => lower a b = true) ∧
    (∀ v ∈ trunkPending lower sc s,
      isCorrespondingNode (trunkBackboneState sc lower neighbors s) v = true) ∧
    (trunk sc lower neighbors isJT s).1.superArcs.length =
      (trunkBackboneState sc lower neighbors s).superArcs.length +
        (trunkPending lower sc s).length ∧
    (∀ k, k + 1 < (trunkPending lower sc s).length →
      ((trunk sc lower neighbors isJT s).1.superArcs.getD
          ((trunkBackboneState sc lower neighbors s).superArcs.length + k)
          default).downNodeId =
        getCorrespondingNodeId (trunkBackboneState sc lower neighbors s)
          ((trunkPending lower sc s).getD k 0) ∧
      ((trunk sc lower neighbors isJT s).1.superArcs.getD
          ((trunkBackboneState sc lower neighbors s).superArcs.length + k)
          default).upNodeId =
        some (getCorrespondingNodeId (trunkBackboneState sc lower neighbors s)
          ((trunkPending lower sc s).getD (k + 1) 0)) ∧
      ((trunk sc lower neighbors isJT s).1.superArcs.getD
          ((trunkBackboneState sc lower neighbors s).superArcs.length + k)
          default).lastVisited = some ((trunkPending lower sc s).getD (k + 1) 0)) ∧
    ((trunk sc lower neighbors isJT s).1.superArcs.getD
        ((trunkBackboneState sc lower neighbors s).superArcs.length +
          ((trunkPending lower sc s).length - 1)) default).downNodeId =
      getCorrespondingNodeId (trunkBackboneState sc lower neighbors s)
        ((trunkPending lower sc s).getD ((trunkPending lower sc s).length - 1) 0) ∧
    ∃ r, ((trunk sc lower neighbors isJT s).1.superArcs.getD
          ((trunkBackboneState sc lower neighbors s).superArcs.length +
            ((trunkPending lower sc s).length - 1)) default).upNodeId = some r ∧
      r < (trunk sc lower neighbors isJT s).1.nodes.length ∧
      ((trunk sc lower neighbors isJT s).1.nodes.getD r default).vertexId =
        sc.sortedVertices.getD (if isJT then sc.size - 1 else 0) 0 ∧
      ((trunk sc lower neighbors isJT s).1.superArcs.getD
          ((trunkBackboneState sc lower neighbors s).superArcs.length +
            ((trunkPending lower sc s).length - 1)) default).lastVisited =
        some (sc.sortedVertices.getD (if isJT then sc.size - 1 else 0) 0) := by
  set P := trunkPending lower sc s with hP
  set B := trunkBackboneState sc lower neighbors s with hB
  set rootV := sc.sortedVertices.getD (if isJT then sc.size - 1 else 0) 0 with hrootV
  have hBfold : B = P.foldl (closeOnBackBone sc lower neighbors) s := rfl
  have hmem : ∀ v, v ∈ P ↔ v < sc.size ∧ s.openedNodes.getD v false = true := by
    intro v
    rw [hP, trunkPending, (stdSort_perm lower _).mem_iff]
    simp [List.mem_filter]
  have hpair : P.Pairwise (fun a b => lower a b = true) := by
    rw [hP, trunkPending]
    exact stdSort_pairwise_strict lower hirr htr htot _
      (List.Nodup.filter _ (List.nodup_range sc.size))
  have hnodesB : ∀ v ∈ P, isCorrespondingNode B v = true := by
    intro v hv
    rw [hBfold]
    exact cobbFold_nodes sc lower neighbors P s hlen
      (fun u hu => ((hmem u).mp hu).1) v hv
  have hnb : ¬(P.length = 0) := by
    intro h0
    exact hne (List.length_eq_zero.mp h0)
  obtain ⟨cLen, cNLen, cV2t, cVid, cChain, cOld⟩ := trunkChainAux_inv P B (P.length - 1)
  set sC := trunkChainAux P B (P.length - 1) with hsC
  set dC := getCorrespondingNodeId sC (P.getD (P.length - 1) 0) with hdC
  have hdCB : dC = getCorrespondingNodeId B (P.getD (P.length - 1) 0) :=
    getCorrespondingNodeId_of_v2t cV2t _
  have hgC : dC < sC.nodes.length := by
    rw [hdCB, cNLen]
    exact hlastn
  set s2E := modifyNode
      { sC with superArcs := sC.superArcs ++
          [{ downNodeId := dC, upNodeId := none, lastVisited := none, nbSeen := 0,
             region := [] }] }
      dC (fun n => { n with upArcs := n.upArcs ++ [sC.superArcs.length] }) with hs2E
  have hop : openSuperArc sC dC = (s2E, some sC.superArcs.length) :=
    openSuperArc_ok sC dC hgC
  have hs2Ev2t : s2E.vert2tree = B.vert2tree := cV2t
  have hs2Enlen : s2E.nodes.length = B.nodes.length := by
    rw [hs2E, modifyNode_nodes_length]
    exact cNLen
  have hs2Evid : ∀ n, (s2E.nodes.getD n default).vertexId =
      (B.nodes.getD n default).vertexId := by
    intro n
    rw [hs2E, modifyNode_vertexId_up]
    exact cVid n
  have hconsE : isCorrespondingNode s2E rootV = true →
      getCorrespondingNodeId s2E rootV < s2E.nodes.length ∧
      (s2E.nodes.getD (getCorrespondingNodeId s2E rootV) default).vertexId = rootV := by
    intro hic
    have hic2 : isCorrespondingNode B rootV = true := by
      rw [← isCorrespondingNode_of_v2t hs2Ev2t]
      exact hic
    have hcid : getCorrespondingNodeId s2E rootV = getCorrespondingNodeId B rootV :=
      getCorrespondingNodeId_of_v2t hs2Ev2t _
    obtain ⟨h1, h2⟩ := hrootn hic2
    exact ⟨by rw [hcid, hs2Enlen]; exact h1, by rw [hcid, hs2Evid]; exact h2⟩
  obtain ⟨s3, r, hmk, hrlt, hrvid, hs3arc⟩ := makeNode_root_ok sc s2E rootV hroot hconsE
  have hs2Earcs : s2E.superArcs = sC.superArcs ++
      [{ downNodeId := dC, upNodeId := none, lastVisited := none, nbSeen := 0,
         region := [] }] := rfl
  have haId : sC.superArcs.length < s3.superArcs.length := by
    rw [hs3arc, hs2Earcs]
    simp
  have hclose := closeSuperArc_ok s3 sC.superArcs.length r haId hrlt
  set s4 := modifyNode (modifyArc s3 sC.superArcs.length
      (fun x => { x with upNodeId := some r })) r
      (fun n => { n with downArcs := n.downArcs ++ [sC.superArcs.length] }) with hs4
  have hs4vid : (s4.nodes.getD r default).vertexId = rootV := by
    rw [hs4, modifyNode_vertexId_down]
    exact hrvid
  have hs4arcs : s4.superArcs = s3.superArcs.set sC.superArcs.length
      ((fun x : SuperArc => { x with upNodeId := some r })
        (s3.superArcs.getD sC.superArcs.length default)) := rfl
  have hs4len : s4.superArcs.length = sC.superArcs.length + 1 := by
    rw [hs4arcs, List.length_set, hs3arc, hs2Earcs]
    simp
  have hs4nlen : s4.nodes.length = s3.nodes.length := by
    rw [hs4, modifyNode_nodes_length]
    rfl
  have hF : trunk sc lower neighbors isJT s =
      (setLastVisited s4 sC.superArcs.length ((s4.nodes.getD r default).vertexId),
       ((getBoundsFromVerts sc isJT P).2 - (getBoundsFromVerts sc isJT P).1).natAbs) := by
    simp only [trunk]
    rw [← hP, ← hBfold, ← hsC, ← hdC, ← hrootV]
    rw [if_neg hnb]
    rw [hop]
    simp only [Option.getD_some]
    rw [hmk]
    simp only [Option.getD_some]
    rw [hclose]
  have hgA : s3.superArcs.getD sC.superArcs.length default =
      { downNodeId := dC, upNodeId := none, lastVisited := none, nbSeen := 0,
        region := [] } := by
    rw [hs3arc, hs2Earcs]
    rw [getD_append_right _ (Nat.le_refl _)]
    simp
  have hA1 : s4.superArcs.getD sC.superArcs.length default =
      { downNodeId := dC, upNodeId := some r, lastVisited := none, nbSeen := 0,
        region := [] } := by
    rw [hs4arcs, getD_set_self (by omega : sC.superArcs.length < s3.superArcs.length)]
    rw [hgA]
  have hFsup : (setLastVisited s4 sC.superArcs.length
        ((s4.nodes.getD r default).vertexId)).superArcs =
      s4.superArcs.set sC.superArcs.length
        { downNodeId := dC, upNodeId := some r, lastVisited := some rootV, nbSeen := 0,
          region := [] } := by
    show s4.superArcs.set sC.superArcs.length
        ((fun x : SuperArc =>
          { x with lastVisited := some ((s4.nodes.getD r default).vertexId) })
          (s4.superArcs.getD sC.superArcs.length default)) = _
    rw [hA1, hs4vid]
  have hFnodes : (setLastVisited s4 sC.superArcs.length
      ((s4.nodes.getD r default).vertexId)).nodes = s4.nodes := rfl
  have harcF : (trunk sc lower neighbors isJT s).1.superArcs.getD
      (B.superArcs.length + (P.length - 1)) default =
      { downNodeId := dC, upNodeId := some r, lastVisited := some rootV, nbSeen := 0,
        region := [] } := by
    rw [hF]
    show (setLastVisited s4 sC.superArcs.length
        ((s4.nodes.getD r default).vertexId)).superArcs.getD
        (B.superArcs.length + (P.length - 1)) default = _
    rw [hFsup]
    have hidx : B.superArcs.length + (P.length - 1) = sC.superArcs.length := by omega
    rw [hidx, getD_set_self (by omega : sC.superArcs.length < s4.superArcs.length)]
  refine ⟨hmem, hpair, hnodesB, ?_, ?_, ?_, ?_⟩
  · rw [hF]
    show (setLastVisited s4 sC.superArcs.length
        ((s4.nodes.getD r default).vertexId)).superArcs.length =
      B.superArcs.length + P.length
    rw [hFsup, List.length_set, hs4len]
    omega
  · intro k hk
    have harcK : (trunk sc lower neighbors isJT s).1.superArcs.getD
        (B.superArcs.length + k) default =
        { downNodeId := getCorrespondingNodeId B (P.getD k 0),
          upNodeId := some (getCorrespondingNodeId B (P.getD (k + 1) 0)),
          lastVisited := some (P.getD (k + 1) 0), nbSeen := 0, region := [] } := by
      rw [hF]
      show (setLastVisited s4 sC.superArcs.length
          ((s4.nodes.getD r default).vertexId)).superArcs.getD
          (B.superArcs.length + k) default = _
      rw [hFsup]
      rw [getD_set_ne _ _ (by omega : sC.superArcs.length ≠ B.superArcs.length + k)]
      rw [hs4arcs]
      rw [getD_set_ne _ _ (by omega : sC.superArcs.length ≠ B.superArcs.length + k)]
      rw [hs3arc, hs2Earcs]
      rw [getD_append_left _ (by omega : B.superArcs.length + k < sC.superArcs.length)]
      exact cChain k (by omega)
    exact ⟨by rw [harcK], by rw [harcK], by rw [harcK]⟩
  · rw [harcF]
    exact hdCB
  · refine ⟨r, by rw [harcF], ?_, ?_, by rw [harcF]⟩
    · rw [hF]
      show r < (setLastVisited s4 sC.superArcs.length
          ((s4.nodes.getD r default).vertexId)).nodes.length
      rw [hFnodes, hs4nlen]
      exact hrlt
    · rw [hF]
      show ((setLastVisited s4 sC.superArcs.length
          ((s4.nodes.getD r default).vertexId)).nodes.getD r default).vertexId = rootV
      rw [hFnodes]
      exact hs4vid

/-- Witness for C5 on the three-vertex fixture: the single pending vertex
1 is collected, the backbone ends with one arc whose upper end is a node
sitting at `sortedVertices[size-1]`. -/
theorem trunk_spec_witness :
    (1 ∈ trunkPending natLower sc3 fixTrunk ↔
      1 < sc3.size ∧ fixTrunk.openedNodes.getD 1 false = true) ∧
    (trunk sc3 natLower chainNeighbors true fixTrunk).1.superArcs.length =
      (trunkBackboneState sc3 natLower chainNeighbors fixTrunk).superArcs.length +
        (trunkPending natLower sc3 fixTrunk).length ∧
    ∃ r, ((trunk sc3 natLower chainNeighbors true fixTrunk).1.superArcs.getD
          ((trunkBackboneState sc3 natLower chainNeighbors fixTrunk).superArcs.length +
            ((trunkPending natLower sc3 fixTrunk).length - 1)) default).upNodeId =
        some r ∧
      r < (trunk sc3 natLower chainNeighbors true fixTrunk).1.nodes.length ∧
      ((trunk sc3 natLower chainNeighbors true fixTrunk).1.nodes.getD r
          default).vertexId =
        sc3.sortedVertices.getD (if true then sc3.size - 1 else 0) 0 := by
  have hPfix : trunkPending natLower sc3 fixTrunk = [1] := by
    rw [trunkPending]
    rw [(by decide : (List.range sc3.size).filter
      (fun v => fixTrunk.openedNodes.getD v false) = [1])]
    rw [stdSort]
    exact List.mergeSort_singleton 1
  have h := trunk_spec sc3 natLower chainNeighbors true fixTrunk
    (fun a => by simp [natLower])
    (fun a b c h1 h2 => by simp only [natLower, decide_eq_true_eq] at *; omega)
    (fun a b hab => by simp only [natLower, decide_eq_true_eq]; omega)
    (by decide)
    (by rw [hPfix]; simp)
    (by simp only [trunkBackboneState]; rw [hPfix]; decide)
    (by decide)
    (by simp only [trunkBackboneState]; rw [hPfix]; decide)
  refine ⟨h.1 1, h.2.2.2.1, ?_⟩
  obtain ⟨r, h1, h2, h3, h4⟩ := h.2.2.2.2.2.2
  exact ⟨r, h1, h2, h3⟩

end TaskedTree
